import Mathlib

/-!
Verification of the range-indexed nested-sequence extraction engine of the
qran repository (files src/qrn/mushaf.py and src/mushaf.py).

The Quran data is a four-level nested ordered structure: an `indexes` nested
array (sura, verse, word, list of block ids) and a `blocks` flat array mapping
a block id to a 4-tuple of strings.  The engine extracts the leaves whose
coordinate lies in an inclusive range, optionally aggregates consecutive
leaves of one word, clamps out-of-bounds coordinates and resolves sentinel
"last" (-1) components.

Machine integers are modelled as Int (Python ints are unbounded); Python list
indexing, which accepts negative indices counting from the back, is modelled
by pyGet; an index that Python would reject with IndexError returns the
default element instead, and every claim proved here stays inside the
in-bounds region where the two agree.
-/

namespace Qran

/-- Quranic index, after the pydantic model Index of src/mushaf.py
(sura, verse, word integers, block an optional integer).  The model file
src/qrn/models.py is not part of the sources; its Index has the same four
fields (see spec section 3). -/
structure Index where
  sura : Int
  verse : Int
  word : Int
  block : Option Int
deriving DecidableEq, Repr

/-- Quranic index range, after the pydantic model IndexRange of src/mushaf.py. -/
structure IndexRange where
  ini : Index
  end_ : Index
deriving DecidableEq, Repr

/-- Quranic block together with its index, after the pydantic model Block of
src/mushaf.py: four string fields plus the coordinate that produced it. -/
structure Block where
  grapheme_ar : String
  grapheme_lt : String
  archigrapheme_ar : String
  archigrapheme_lt : String
  index : Index
deriving DecidableEq, Repr

/-- The loaded Quran structure: data["indexes"] is the 4-level nested array of
block ids, data["blocks"] maps a block id to its four string shapes. -/
structure QuranData where
  indexes : List (List (List (List Nat)))
  blocks : List (String × String × String × String)
deriving DecidableEq, Repr

/-- Python list indexing xs[i]: a negative index counts from the back.
An index out of range raises IndexError in Python; here it returns the
default d, and all theorems below stay where the two agree. -/
def pyGet (d : α) (xs : List α) (i : Int) : α :=
  if 0 ≤ i then xs.getD i.toNat d
  else if 0 ≤ (xs.length : Int) + i then xs.getD ((xs.length : Int) + i).toNat d
  else d

/-- A fully resolved 0-based coordinate: the four loop bounds of _extract_seq
after unpacking (lines 41 to 49 of src/qrn/mushaf.py). -/
structure RCoord where
  sura : Int
  verse : Int
  word : Int
  block : Int
deriving DecidableEq, Repr

/-- The record yielded by _extract_seq for loop indices (s, v, w, b) and block
id bid: the four strings of data["blocks"][bid] and the 1-based coordinate
(each loop index plus one). -/
def mkBlock (data : QuranData) (s : Int) (v w b : Nat) (bid : Nat) : Block :=
  let t := data.blocks.getD bid ("", "", "", "")
  { grapheme_ar := t.1
    grapheme_lt := t.2.1
    archigrapheme_ar := t.2.2.1
    archigrapheme_lt := t.2.2.2
    index := { sura := s + 1, verse := (v : Int) + 1, word := (w : Int) + 1,
               block := some ((b : Int) + 1) } }

/-- Innermost loop of _extract_seq (src/qrn/mushaf.py lines 62 to 85): walk
the block ids of one word with counter b, skipping below the initial block of
the initial word, stopping the whole traversal past the final block of the
final word.  The Bool records whether the stop fired (the Python return). -/
def blockLoop (data : QuranData) (ini end_ : RCoord) (s : Int) (v w : Nat) :
    List Nat → Nat → List Block × Bool
  | [], _ => ([], false)
  | bid :: rest, b =>
    if s = ini.sura ∧ (v : Int) = ini.verse ∧ (w : Int) = ini.word ∧ (b : Int) < ini.block then
      blockLoop data ini end_ s v w rest (b + 1)
    else if s = end_.sura ∧ (v : Int) = end_.verse ∧ (w : Int) = end_.word ∧ (b : Int) > end_.block then
      ([], true)
    else
      let r := blockLoop data ini end_ s v w rest (b + 1)
      (mkBlock data s v w b bid :: r.1, r.2)

/-- Word loop of _extract_seq (src/qrn/mushaf.py lines 57 to 61). -/
def wordLoop (data : QuranData) (ini end_ : RCoord) (s : Int) (v : Nat) :
    List (List Nat) → Nat → List Block × Bool
  | [], _ => ([], false)
  | word :: rest, w =>
    if s = ini.sura ∧ (v : Int) = ini.verse ∧ (w : Int) < ini.word then
      wordLoop data ini end_ s v rest (w + 1)
    else if s = end_.sura ∧ (v : Int) = end_.verse ∧ (w : Int) > end_.word then
      ([], true)
    else
      let p := blockLoop data ini end_ s v w word 0
      if p.2 then (p.1, true)
      else
        let r := wordLoop data ini end_ s v rest (w + 1)
        (p.1 ++ r.1, r.2)

/-- Verse loop of _extract_seq (src/qrn/mushaf.py lines 52 to 56). -/
def verseLoop (data : QuranData) (ini end_ : RCoord) (s : Int) :
    List (List (List Nat)) → Nat → List Block × Bool
  | [], _ => ([], false)
  | verse :: rest, v =>
    if s = ini.sura ∧ (v : Int) < ini.verse then
      verseLoop data ini end_ s rest (v + 1)
    else if s = end_.sura ∧ (v : Int) > end_.verse then
      ([], true)
    else
      let p := wordLoop data ini end_ s v verse 0
      if p.2 then (p.1, true)
      else
        let r := verseLoop data ini end_ s rest (v + 1)
        (p.1 ++ r.1, r.2)

/-- Sura loop of _extract_seq: for isura in range(ini_sura, end_sura + 1),
given as fuel the length of that Python range. -/
def suraLoop (data : QuranData) (ini end_ : RCoord) : Nat → Int → List Block
  | 0, _ => []
  | n + 1, s =>
    let p := verseLoop data ini end_ s (pyGet [] data.indexes s) 0
    if p.2 then p.1
    else p.1 ++ suraLoop data ini end_ n (s + 1)

/-- _extract_seq of src/qrn/mushaf.py (lines 26 to 85): the full generator as
the list of records it yields.  When either block component is None, Python
raises TypeError at the first block comparison before yielding anything;
the model returns the empty list there, and no claim touches that case. -/
def extract_seq (data : QuranData) (ini_ind end_ind : Index) : List Block :=
  match ini_ind.block, end_ind.block with
  | some ib, some eb =>
    suraLoop data ⟨ini_ind.sura, ini_ind.verse, ini_ind.word, ib⟩
      ⟨end_ind.sura, end_ind.verse, end_ind.word, eb⟩
      (end_ind.sura + 1 - ini_ind.sura).toNat ini_ind.sura
  | _, _ => []

/-- Word loop of the older _extract_seq of src/mushaf.py (lines 138 to 149):
the stop check at line 141 compares iverse against ini_verse instead of
end_verse. -/
def wordLoopOld (data : QuranData) (ini end_ : RCoord) (s : Int) (v : Nat) :
    List (List Nat) → Nat → List Block × Bool
  | [], _ => ([], false)
  | word :: rest, w =>
    if s = ini.sura ∧ (v : Int) = ini.verse ∧ (w : Int) < ini.word then
      wordLoopOld data ini end_ s v rest (w + 1)
    else if s = end_.sura ∧ (v : Int) = ini.verse ∧ (w : Int) > end_.word then
      ([], true)
    else
      let p := blockLoop data ini end_ s v w word 0
      if p.2 then (p.1, true)
      else
        let r := wordLoopOld data ini end_ s v rest (w + 1)
        (p.1 ++ r.1, r.2)

/-- Verse loop of the older _extract_seq of src/mushaf.py. -/
def verseLoopOld (data : QuranData) (ini end_ : RCoord) (s : Int) :
    List (List (List Nat)) → Nat → List Block × Bool
  | [], _ => ([], false)
  | verse :: rest, v =>
    if s = ini.sura ∧ (v : Int) < ini.verse then
      verseLoopOld data ini end_ s rest (v + 1)
    else if s = end_.sura ∧ (v : Int) > end_.verse then
      ([], true)
    else
      let p := wordLoopOld data ini end_ s v verse 0
      if p.2 then (p.1, true)
      else
        let r := verseLoopOld data ini end_ s rest (v + 1)
        (p.1 ++ r.1, r.2)

/-- Sura loop of the older _extract_seq of src/mushaf.py. -/
def suraLoopOld (data : QuranData) (ini end_ : RCoord) : Nat → Int → List Block
  | 0, _ => []
  | n + 1, s =>
    let p := verseLoopOld data ini end_ s (pyGet [] data.indexes s) 0
    if p.2 then p.1
    else p.1 ++ suraLoopOld data ini end_ n (s + 1)

/-- _extract_seq of src/mushaf.py (lines 111 to 166), taking an IndexRange. -/
def extract_seq_old (data : QuranData) (ind : IndexRange) : List Block :=
  match ind.ini.block, ind.end_.block with
  | some ib, some eb =>
    suraLoopOld data ⟨ind.ini.sura, ind.ini.verse, ind.ini.word, ib⟩
      ⟨ind.end_.sura, ind.end_.verse, ind.end_.word, eb⟩
      (ind.end_.sura + 1 - ind.ini.sura).toNat ind.ini.sura
  | _, _ => []

/-- Lexicographic order over (sura, verse, word, block), the order of the
spec, section 4.2. -/
def lexLe (a b : RCoord) : Prop :=
  a.sura < b.sura ∨ (a.sura = b.sura ∧ (a.verse < b.verse ∨ (a.verse = b.verse ∧
    (a.word < b.word ∨ (a.word = b.word ∧ a.block ≤ b.block)))))

/-- Strict lexicographic order over (sura, verse, word, block). -/
def lexLt (a b : RCoord) : Prop :=
  a.sura < b.sura ∨ (a.sura = b.sura ∧ (a.verse < b.verse ∨ (a.verse = b.verse ∧
    (a.word < b.word ∨ (a.word = b.word ∧ a.block < b.block)))))

instance (a b : RCoord) : Decidable (lexLe a b) := by
  unfold lexLe; exact inferInstance

instance (a b : RCoord) : Decidable (lexLt a b) := by
  unfold lexLt; exact inferInstance

/-- Membership in the inclusive range of the spec, section 4.2. -/
def inRange (ini end_ c : RCoord) : Prop := lexLe ini c ∧ lexLe c end_

instance (ini end_ c : RCoord) : Decidable (inRange ini end_ c) := by
  unfold inRange; exact inferInstance

/-- Enumeration of a list together with 0-based positions starting at n. -/
def enumF (n : Nat) : List α → List (Nat × α)
  | [] => []
  | x :: xs => (n, x) :: enumF (n + 1) xs

/-- All leaves of the structure, as (coordinate, block id) pairs, enumerated
in lexicographic coordinate order by walking the four nesting levels. -/
def enumLeaves (data : QuranData) : List ((Nat × Nat × Nat × Nat) × Nat) :=
  (enumF 0 data.indexes).flatMap fun sp =>
    (enumF 0 sp.2).flatMap fun vp =>
      (enumF 0 vp.2).flatMap fun wp =>
        (enumF 0 wp.2).map fun bp => ((sp.1, vp.1, wp.1, bp.1), bp.2)

/-- A 0-based leaf coordinate as a resolved coordinate. -/
def toR (c : Nat × Nat × Nat × Nat) : RCoord :=
  ⟨(c.1 : Int), (c.2.1 : Int), (c.2.2.1 : Int), (c.2.2.2 : Int)⟩

/-- The record of the leaf at 0-based coordinate c with block id bid. -/
def mkLeaf (data : QuranData) (c : Nat × Nat × Nat × Nat) (bid : Nat) : Block :=
  mkBlock data (c.1 : Int) c.2.1 c.2.2.1 c.2.2.2 bid

/-- Specification-side extraction, following the words of the spec,
section 4.2: the sequence is exactly the leaves whose coordinate lies within
the inclusive range under lexicographic order over (sura, verse, word,
block), traversed in that same order, each tagged with its 1-based
coordinate. -/
def specExtract (data : QuranData) (ini end_ : RCoord) : List Block :=
  ((enumLeaves data).filter fun p => decide (inRange ini end_ (toR p.1))).map
    fun p => mkLeaf data p.1 p.2

/-- A resolved coordinate as an Index with its block component present. -/
def toIndex (c : RCoord) : Index := ⟨c.sura, c.verse, c.word, some c.block⟩

/-- The coordinate carried by an emitted record. -/
def coordOf (b : Block) : RCoord :=
  ⟨b.index.sura, b.index.verse, b.index.word, b.index.block.getD 0⟩

/-- In-range leaves of one word (positions counted from b0), in order. -/
def blockSpec (data : QuranData) (ini end_ : RCoord) (s : Int) (v w : Nat)
    (bs : List Nat) (b0 : Nat) : List Block :=
  ((enumF b0 bs).filter fun p =>
      decide (inRange ini end_ ⟨s, (v : Int), (w : Int), (p.1 : Int)⟩)).map
    fun p => mkBlock data s v w p.1 p.2

/-- In-range leaves of one verse (word positions counted from w0), in order. -/
def wordSpec (data : QuranData) (ini end_ : RCoord) (s : Int) (v : Nat)
    (ws : List (List Nat)) (w0 : Nat) : List Block :=
  (enumF w0 ws).flatMap fun p => blockSpec data ini end_ s v p.1 p.2 0

/-- In-range leaves of one sura (verse positions counted from v0), in order. -/
def verseSpec (data : QuranData) (ini end_ : RCoord) (s : Int)
    (vs : List (List (List Nat))) (v0 : Nat) : List Block :=
  (enumF v0 vs).flatMap fun p => wordSpec data ini end_ s p.1 p.2 0

/-- In-range leaves of the sura at Python index s. -/
def suraAt (data : QuranData) (ini end_ : RCoord) (s : Int) : List Block :=
  verseSpec data ini end_ s (pyGet [] data.indexes s) 0

/-- The integers lo, lo + 1, ..., lo + n - 1, the Python range(lo, lo + n). -/
def intRange (lo : Int) : Nat → List Int
  | 0 => []
  | n + 1 => lo :: intRange (lo + 1) n

/-- In-range leaves gathered over the sura range of the traversal. -/
def suraSpec (data : QuranData) (ini end_ : RCoord) : List Block :=
  (intRange ini.sura (end_.sura + 1 - ini.sura).toNat).flatMap (suraAt data ini end_)

/-! Arithmetic facts about range membership. -/

theorem not_inRange_sura_lo {ini end_ : RCoord} {s v w b : Int} (h : s < ini.sura) :
    ¬ inRange ini end_ ⟨s, v, w, b⟩ := by
  simp only [inRange, lexLe]; omega

theorem not_inRange_sura_hi {ini end_ : RCoord} {s v w b : Int} (h : end_.sura < s) :
    ¬ inRange ini end_ ⟨s, v, w, b⟩ := by
  simp only [inRange, lexLe]; omega

theorem not_inRange_verse_lo {ini end_ : RCoord} {s v w b : Int}
    (h1 : s = ini.sura) (h2 : v < ini.verse) :
    ¬ inRange ini end_ ⟨s, v, w, b⟩ := by
  simp only [inRange, lexLe]; omega

theorem not_inRange_verse_hi {ini end_ : RCoord} {s v w b : Int}
    (h1 : s = end_.sura) (h2 : end_.verse < v) :
    ¬ inRange ini end_ ⟨s, v, w, b⟩ := by
  simp only [inRange, lexLe]; omega

theorem not_inRange_word_lo {ini end_ : RCoord} {s v w b : Int}
    (h1 : s = ini.sura) (h2 : v = ini.verse) (h3 : w < ini.word) :
    ¬ inRange ini end_ ⟨s, v, w, b⟩ := by
  simp only [inRange, lexLe]; omega

theorem not_inRange_word_hi {ini end_ : RCoord} {s v w b : Int}
    (h1 : s = end_.sura) (h2 : v = end_.verse) (h3 : end_.word < w) :
    ¬ inRange ini end_ ⟨s, v, w, b⟩ := by
  simp only [inRange, lexLe]; omega

theorem not_inRange_blk_lo {ini end_ : RCoord} {s v w b : Int}
    (h1 : s = ini.sura) (h2 : v = ini.verse) (h3 : w = ini.word) (h4 : b < ini.block) :
    ¬ inRange ini end_ ⟨s, v, w, b⟩ := by
  simp only [inRange, lexLe]; omega

theorem not_inRange_blk_hi {ini end_ : RCoord} {s v w b : Int}
    (h1 : s = end_.sura) (h2 : v = end_.verse) (h3 : w = end_.word) (h4 : end_.block < b) :
    ¬ inRange ini end_ ⟨s, v, w, b⟩ := by
  simp only [inRange, lexLe]; omega

theorem inRange_of_gates {ini end_ : RCoord} {s v w b : Int}
    (hs1 : ini.sura ≤ s) (hs2 : s ≤ end_.sura)
    (hv1 : s = ini.sura → ini.verse ≤ v) (hv2 : s = end_.sura → v ≤ end_.verse)
    (hw1 : s = ini.sura → v = ini.verse → ini.word ≤ w)
    (hw2 : s = end_.sura → v = end_.verse → w ≤ end_.word)
    (hb1 : s = ini.sura → v = ini.verse → w = ini.word → ini.block ≤ b)
    (hb2 : s = end_.sura → v = end_.verse → w = end_.word → b ≤ end_.block) :
    inRange ini end_ ⟨s, v, w, b⟩ := by
  simp only [inRange, lexLe]; omega

/-! Unfolding equations of the spec helpers. -/

theorem blockSpec_cons {data : QuranData} {ini end_ : RCoord} {s : Int} {v w : Nat}
    (bid : Nat) (bs : List Nat) (b0 : Nat) :
    blockSpec data ini end_ s v w (bid :: bs) b0 =
      (if inRange ini end_ ⟨s, (v : Int), (w : Int), (b0 : Int)⟩
        then [mkBlock data s v w b0 bid] else []) ++
      blockSpec data ini end_ s v w bs (b0 + 1) := by
  by_cases h : inRange ini end_ ⟨s, (v : Int), (w : Int), (b0 : Int)⟩
  · simp [blockSpec, enumF, List.filter_cons, h]
  · simp [blockSpec, enumF, List.filter_cons, h]

theorem wordSpec_cons {data : QuranData} {ini end_ : RCoord} {s : Int} {v : Nat}
    (word : List Nat) (ws : List (List Nat)) (w0 : Nat) :
    wordSpec data ini end_ s v (word :: ws) w0 =
      blockSpec data ini end_ s v w0 word 0 ++ wordSpec data ini end_ s v ws (w0 + 1) := by
  simp [wordSpec, enumF]

theorem verseSpec_cons {data : QuranData} {ini end_ : RCoord} {s : Int}
    (verse : List (List Nat)) (vs : List (List (List Nat))) (v0 : Nat) :
    verseSpec data ini end_ s (verse :: vs) v0 =
      wordSpec data ini end_ s v0 verse 0 ++ verseSpec data ini end_ s vs (v0 + 1) := by
  simp [verseSpec, enumF]

/-! Vanishing of the spec helpers outside the range. -/

theorem blockSpec_nil {data : QuranData} {ini end_ : RCoord} {s : Int} {v w : Nat}
    (bs : List Nat) (b0 : Nat)
    (h : ∀ b : Nat, b0 ≤ b → ¬ inRange ini end_ ⟨s, (v : Int), (w : Int), (b : Int)⟩) :
    blockSpec data ini end_ s v w bs b0 = [] := by
  induction bs generalizing b0 with
  | nil => rfl
  | cons bid bs ih =>
    rw [blockSpec_cons, if_neg (h b0 le_rfl)]
    simpa using ih (b0 + 1) fun b hb => h b (by omega)

theorem wordSpec_nil {data : QuranData} {ini end_ : RCoord} {s : Int} {v : Nat}
    (ws : List (List Nat)) (w0 : Nat)
    (h : ∀ wi : Nat, w0 ≤ wi →
      ∀ b : Nat, ¬ inRange ini end_ ⟨s, (v : Int), (wi : Int), (b : Int)⟩) :
    wordSpec data ini end_ s v ws w0 = [] := by
  induction ws generalizing w0 with
  | nil => rfl
  | cons word ws ih =>
    rw [wordSpec_cons, blockSpec_nil word 0 fun b _ => h w0 le_rfl b]
    simpa using ih (w0 + 1) fun wi hwi b => h wi (by omega) b

theorem verseSpec_nil {data : QuranData} {ini end_ : RCoord} {s : Int}
    (vs : List (List (List Nat))) (v0 : Nat)
    (h : ∀ vi : Nat, v0 ≤ vi →
      ∀ wi b : Nat, ¬ inRange ini end_ ⟨s, (vi : Int), (wi : Int), (b : Int)⟩) :
    verseSpec data ini end_ s vs v0 = [] := by
  induction vs generalizing v0 with
  | nil => rfl
  | cons verse vs ih =>
    rw [verseSpec_cons, wordSpec_nil verse 0 fun wi _ b => h v0 le_rfl wi b]
    simpa using ih (v0 + 1) fun vi hvi wi b => h vi (by omega) wi b

/-! Each loop of _extract_seq computes the in-range filter of its subtree and
raises the stop flag only at the final coordinate prefix. -/

theorem blockLoop_eq {data : QuranData} {ini end_ : RCoord} {s : Int} {v w : Nat}
    (hs1 : ini.sura ≤ s) (hs2 : s ≤ end_.sura)
    (hv1 : s = ini.sura → ini.verse ≤ (v : Int)) (hv2 : s = end_.sura → (v : Int) ≤ end_.verse)
    (hw1 : s = ini.sura → (v : Int) = ini.verse → ini.word ≤ (w : Int))
    (hw2 : s = end_.sura → (v : Int) = end_.verse → (w : Int) ≤ end_.word) :
    ∀ (bs : List Nat) (b0 : Nat),
      (blockLoop data ini end_ s v w bs b0).1 = blockSpec data ini end_ s v w bs b0 ∧
      ((blockLoop data ini end_ s v w bs b0).2 = true →
        s = end_.sura ∧ (v : Int) = end_.verse ∧ (w : Int) = end_.word) := by
  intro bs
  induction bs with
  | nil => exact fun b0 => ⟨rfl, by simp [blockLoop]⟩
  | cons bid bs ih =>
    intro b0
    by_cases hskip : s = ini.sura ∧ (v : Int) = ini.verse ∧ (w : Int) = ini.word ∧
        (b0 : Int) < ini.block
    · obtain ⟨h1, h2⟩ := ih (b0 + 1)
      constructor
      · rw [blockLoop, if_pos hskip, h1, blockSpec_cons,
          if_neg (not_inRange_blk_lo hskip.1 hskip.2.1 hskip.2.2.1 hskip.2.2.2)]
        simp
      · rw [blockLoop, if_pos hskip]; exact h2
    · by_cases hstop : s = end_.sura ∧ (v : Int) = end_.verse ∧ (w : Int) = end_.word ∧
          (b0 : Int) > end_.block
      · constructor
        · rw [blockLoop, if_neg hskip, if_pos hstop]
          refine Eq.symm (blockSpec_nil _ b0 fun b hb => ?_)
          exact not_inRange_blk_hi hstop.1 hstop.2.1 hstop.2.2.1 (by have := hstop.2.2.2; omega)
        · rw [blockLoop, if_neg hskip, if_pos hstop]
          exact fun _ => ⟨hstop.1, hstop.2.1, hstop.2.2.1⟩
      · obtain ⟨h1, h2⟩ := ih (b0 + 1)
        have hb1 : s = ini.sura → (v : Int) = ini.verse → (w : Int) = ini.word →
            ini.block ≤ (b0 : Int) := by
          intro a b c; by_contra hh; exact hskip ⟨a, b, c, by omega⟩
        have hb2 : s = end_.sura → (v : Int) = end_.verse → (w : Int) = end_.word →
            (b0 : Int) ≤ end_.block := by
          intro a b c; by_contra hh; exact hstop ⟨a, b, c, by omega⟩
        constructor
        · rw [blockLoop, if_neg hskip, if_neg hstop, blockSpec_cons,
            if_pos (inRange_of_gates hs1 hs2 hv1 hv2 hw1 hw2 hb1 hb2)]
          simp [h1]
        · rw [blockLoop, if_neg hskip, if_neg hstop]
          exact h2

theorem wordLoop_eq {data : QuranData} {ini end_ : RCoord} {s : Int} {v : Nat}
    (hs1 : ini.sura ≤ s) (hs2 : s ≤ end_.sura)
    (hv1 : s = ini.sura → ini.verse ≤ (v : Int)) (hv2 : s = end_.sura → (v : Int) ≤ end_.verse) :
    ∀ (ws : List (List Nat)) (w0 : Nat),
      (wordLoop data ini end_ s v ws w0).1 = wordSpec data ini end_ s v ws w0 ∧
      ((wordLoop data ini end_ s v ws w0).2 = true →
        s = end_.sura ∧ (v : Int) = end_.verse) := by
  intro ws
  induction ws with
  | nil => exact fun w0 => ⟨rfl, by simp [wordLoop]⟩
  | cons word ws ih =>
    intro w0
    by_cases hskip : s = ini.sura ∧ (v : Int) = ini.verse ∧ (w0 : Int) < ini.word
    · obtain ⟨h1, h2⟩ := ih (w0 + 1)
      constructor
      · rw [wordLoop, if_pos hskip, h1, wordSpec_cons,
          blockSpec_nil word 0 fun b _ => not_inRange_word_lo hskip.1 hskip.2.1 hskip.2.2]
        simp
      · rw [wordLoop, if_pos hskip]; exact h2
    · by_cases hstop : s = end_.sura ∧ (v : Int) = end_.verse ∧ (w0 : Int) > end_.word
      · constructor
        · rw [wordLoop, if_neg hskip, if_pos hstop]
          refine Eq.symm (wordSpec_nil _ w0 fun wi hwi b => ?_)
          exact not_inRange_word_hi hstop.1 hstop.2.1 (by have := hstop.2.2; omega)
        · rw [wordLoop, if_neg hskip, if_pos hstop]
          exact fun _ => ⟨hstop.1, hstop.2.1⟩
      · have hw1 : s = ini.sura → (v : Int) = ini.verse → ini.word ≤ (w0 : Int) := by
          intro a b; by_contra hh; exact hskip ⟨a, b, by omega⟩
        have hw2 : s = end_.sura → (v : Int) = end_.verse → (w0 : Int) ≤ end_.word := by
          intro a b; by_contra hh; exact hstop ⟨a, b, by omega⟩
        obtain ⟨hB1, hB2⟩ := blockLoop_eq hs1 hs2 hv1 hv2 hw1 hw2 word 0
        by_cases hstopped : (blockLoop data ini end_ s v w0 word 0).2 = true
        · obtain ⟨hE1, hE2, hE3⟩ := hB2 hstopped
          constructor
          · rw [wordLoop, if_neg hskip, if_neg hstop]
            simp only [hstopped, if_true]
            rw [hB1, wordSpec_cons,
              wordSpec_nil ws (w0 + 1) fun wi hwi b =>
                not_inRange_word_hi hE1 hE2 (by have := hE3; omega)]
            simp
          · rw [wordLoop, if_neg hskip, if_neg hstop]
            simp only [hstopped, if_true]
            exact fun _ => ⟨hE1, hE2⟩
        · obtain ⟨h1, h2⟩ := ih (w0 + 1)
          rw [Bool.not_eq_true] at hstopped
          constructor
          · rw [wordLoop, if_neg hskip, if_neg hstop]
            simp only [hstopped, Bool.false_eq_true, if_false]
            rw [hB1, h1, wordSpec_cons]
          · rw [wordLoop, if_neg hskip, if_neg hstop]
            simp only [hstopped, Bool.false_eq_true, if_false]
            exact h2

theorem verseLoop_eq {data : QuranData} {ini end_ : RCoord} {s : Int}
    (hs1 : ini.sura ≤ s) (hs2 : s ≤ end_.sura) :
    ∀ (vs : List (List (List Nat))) (v0 : Nat),
      (verseLoop data ini end_ s vs v0).1 = verseSpec data ini end_ s vs v0 ∧
      ((verseLoop data ini end_ s vs v0).2 = true → s = end_.sura) := by
  intro vs
  induction vs with
  | nil => exact fun v0 => ⟨rfl, by simp [verseLoop]⟩
  | cons verse vs ih =>
    intro v0
    by_cases hskip : s = ini.sura ∧ (v0 : Int) < ini.verse
    · obtain ⟨h1, h2⟩ := ih (v0 + 1)
      constructor
      · rw [verseLoop, if_pos hskip, h1, verseSpec_cons,
          wordSpec_nil verse 0 fun wi _ b => not_inRange_verse_lo hskip.1 hskip.2]
        simp
      · rw [verseLoop, if_pos hskip]; exact h2
    · by_cases hstop : s = end_.sura ∧ (v0 : Int) > end_.verse
      · constructor
        · rw [verseLoop, if_neg hskip, if_pos hstop]
          refine Eq.symm (verseSpec_nil _ v0 fun vi hvi wi b => ?_)
          exact not_inRange_verse_hi hstop.1 (by have := hstop.2; omega)
        · rw [verseLoop, if_neg hskip, if_pos hstop]
          exact fun _ => hstop.1
      · have hv1 : s = ini.sura → ini.verse ≤ (v0 : Int) := by
          intro a; by_contra hh; exact hskip ⟨a, by omega⟩
        have hv2 : s = end_.sura → (v0 : Int) ≤ end_.verse := by
          intro a; by_contra hh; exact hstop ⟨a, by omega⟩
        obtain ⟨hW1, hW2⟩ := wordLoop_eq hs1 hs2 hv1 hv2 verse 0
        by_cases hstopped : (wordLoop data ini end_ s v0 verse 0).2 = true
        · obtain ⟨hE1, hE2⟩ := hW2 hstopped
          constructor
          · rw [verseLoop, if_neg hskip, if_neg hstop]
            simp only [hstopped, if_true]
            rw [hW1, verseSpec_cons,
              verseSpec_nil vs (v0 + 1) fun vi hvi wi b =>
                not_inRange_verse_hi hE1 (by have := hE2; omega)]
            simp
          · rw [verseLoop, if_neg hskip, if_neg hstop]
            simp only [hstopped, if_true]
            exact fun _ => hE1
        · obtain ⟨h1, h2⟩ := ih (v0 + 1)
          rw [Bool.not_eq_true] at hstopped
          constructor
          · rw [verseLoop, if_neg hskip, if_neg hstop]
            simp only [hstopped, Bool.false_eq_true, if_false]
            rw [hW1, h1, verseSpec_cons]
          · rw [verseLoop, if_neg hskip, if_neg hstop]
            simp only [hstopped, Bool.false_eq_true, if_false]
            exact h2

theorem suraLoop_eq {data : QuranData} {ini end_ : RCoord} :
    ∀ (n : Nat) (s : Int), ini.sura ≤ s → s + (n : Int) = end_.sura + 1 →
      suraLoop data ini end_ n s = (intRange s n).flatMap (suraAt data ini end_) := by
  intro n
  induction n with
  | zero => intro s _ _; rfl
  | succ n ih =>
    intro s hs1 hcov
    have hs2 : s ≤ end_.sura := by omega
    obtain ⟨hV1, hV2⟩ := @verseLoop_eq data ini end_ s hs1 hs2 (pyGet [] data.indexes s) 0
    by_cases hstopped : (verseLoop data ini end_ s (pyGet [] data.indexes s) 0).2 = true
    · have hE := hV2 hstopped
      have hn : n = 0 := by omega
      subst hn
      rw [suraLoop]
      simp only [hstopped, if_true]
      rw [hV1, intRange, intRange]
      simp [suraAt]
    · rw [Bool.not_eq_true] at hstopped
      rw [suraLoop]
      simp only [hstopped, Bool.false_eq_true, if_false]
      rw [hV1, ih (s + 1) (by omega) (by omega), intRange]
      simp [suraAt]

theorem extract_eq_suraSpec (data : QuranData) (ini end_ : RCoord) :
    extract_seq data (toIndex ini) (toIndex end_) = suraSpec data ini end_ := by
  show suraLoop data ini end_ (end_.sura + 1 - ini.sura).toNat ini.sura = _
  by_cases h : ini.sura ≤ end_.sura + 1
  · exact suraLoop_eq _ _ le_rfl (by omega)
  · have h0 : (end_.sura + 1 - ini.sura).toNat = 0 := by omega
    unfold suraSpec
    rw [h0]
    rfl

/-! Assembly: the sura-range flatMap equals the specification extraction. -/

theorem filter_flatMap (l : List α) (f : α → List β) (p : β → Bool) :
    (l.flatMap f).filter p = l.flatMap fun a => (f a).filter p := by
  induction l with
  | nil => rfl
  | cons x xs ih => simp [List.flatMap_cons, List.filter_append, ih]

theorem specExtract_eq_flat (data : QuranData) (ini end_ : RCoord) :
    specExtract data ini end_ =
      (enumF 0 data.indexes).flatMap fun sp => verseSpec data ini end_ (sp.1 : Int) sp.2 0 := by
  unfold specExtract enumLeaves
  rw [filter_flatMap, List.map_flatMap]
  refine congrArg (List.flatMap _) (funext fun sp => ?_)
  unfold verseSpec
  rw [filter_flatMap, List.map_flatMap]
  refine congrArg (List.flatMap _) (funext fun vp => ?_)
  unfold wordSpec
  rw [filter_flatMap, List.map_flatMap]
  refine congrArg (List.flatMap _) (funext fun wp => ?_)
  unfold blockSpec
  rw [List.filter_map, List.map_map]
  rfl

theorem enumF_mem (d : α) {l : List α} :
    ∀ {k : Nat} {p : Nat × α}, p ∈ enumF k l →
      k ≤ p.1 ∧ p.1 - k < l.length ∧ l.getD (p.1 - k) d = p.2 := by
  induction l with
  | nil => intro k p hp; cases hp
  | cons x xs ih =>
    intro k p hp
    rcases (by simpa [enumF] using hp : p = (k, x) ∨ p ∈ enumF (k + 1) xs) with h | h
    · subst h; simp
    · obtain ⟨h1, h2, h3⟩ := ih h
      refine ⟨by omega, by simp; omega, ?_⟩
      have hk : p.1 - k = (p.1 - (k + 1)) + 1 := by omega
      rw [hk, List.getD_cons_succ]
      exact h3

theorem enumF_flatMap_eq (H : Nat × α → List β) (G : Int → List β) :
    ∀ (l : List α) (k : Nat), (∀ p ∈ enumF k l, G (p.1 : Int) = H p) →
      (enumF k l).flatMap H = (intRange (k : Int) l.length).flatMap G := by
  intro l
  induction l with
  | nil => intro k _; rfl
  | cons x xs ih =>
    intro k h
    have h0 : G (k : Int) = H (k, x) := h (k, x) (by simp [enumF])
    show H (k, x) ++ (enumF (k + 1) xs).flatMap H = _
    have hrec := ih (k + 1) fun p hp => h p (by simp [enumF]; right; exact hp)
    show _ = G (k : Int) ++ (intRange ((k : Int) + 1) xs.length).flatMap G
    rw [h0, hrec]
    have : ((k + 1 : Nat) : Int) = (k : Int) + 1 := by omega
    rw [this]

theorem intRange_flatMap_nil (G : Int → List β) :
    ∀ (k : Nat) (a : Int), (∀ s : Int, a ≤ s → s < a + k → G s = []) →
      (intRange a k).flatMap G = [] := by
  intro k
  induction k with
  | zero => intro a _; rfl
  | succ n ih =>
    intro a h
    show G a ++ (intRange (a + 1) n).flatMap G = []
    rw [h a le_rfl (by omega), ih (a + 1) fun s h1 h2 => h s (by omega) (by omega)]
    rfl

theorem intRange_flatMap_extend_back (G : Int → List β) :
    ∀ (n k : Nat) (a : Int),
      (∀ s : Int, a + n ≤ s → s < a + n + k → G s = []) →
      (intRange a (n + k)).flatMap G = (intRange a n).flatMap G := by
  intro n
  induction n with
  | zero =>
    intro k a h
    show (intRange a (0 + k)).flatMap G = []
    have hk : 0 + k = k := by omega
    rw [hk]
    exact intRange_flatMap_nil G k a fun s h1 h2 => h s (by omega) (by omega)
  | succ n ih =>
    intro k a h
    have hn : n + 1 + k = (n + k) + 1 := by omega
    rw [hn]
    show G a ++ (intRange (a + 1) (n + k)).flatMap G =
      G a ++ (intRange (a + 1) n).flatMap G
    rw [ih k (a + 1) fun s h1 h2 => h s (by omega) (by omega)]

theorem intRange_flatMap_extend_front (G : Int → List β) :
    ∀ (k n : Nat) (a : Int),
      (∀ s : Int, a - k ≤ s → s < a → G s = []) →
      (intRange (a - k) (k + n)).flatMap G = (intRange a n).flatMap G := by
  intro k
  induction k with
  | zero =>
    intro n a _
    have h1 : a - (0 : Nat) = a := by omega
    have h2 : 0 + n = n := by omega
    rw [h1, h2]
  | succ m ih =>
    intro n a h
    have hm : m + 1 + n = (m + n) + 1 := by omega
    rw [hm]
    show G (a - (m + 1 : Nat)) ++ (intRange (a - (m + 1 : Nat) + 1) (m + n)).flatMap G = _
    rw [h (a - (m + 1 : Nat)) le_rfl (by omega)]
    have ha : a - (m + 1 : Nat) + 1 = a - (m : Nat) := by omega
    rw [ha, ih n a fun s h1 h2 => h s (by omega) h2]
    rfl

theorem suraAt_nil_lt {data : QuranData} {ini end_ : RCoord} {s : Int} (h : s < ini.sura) :
    suraAt data ini end_ s = [] :=
  verseSpec_nil _ 0 fun vi _ wi b => not_inRange_sura_lo h

theorem suraAt_nil_gt {data : QuranData} {ini end_ : RCoord} {s : Int} (h : end_.sura < s) :
    suraAt data ini end_ s = [] :=
  verseSpec_nil _ 0 fun vi _ wi b => not_inRange_sura_hi h

theorem suraAt_nil_big {data : QuranData} {ini end_ : RCoord} {s : Int}
    (h : (data.indexes.length : Int) ≤ s) :
    suraAt data ini end_ s = [] := by
  unfold suraAt pyGet
  rw [if_pos (by omega)]
  rw [List.getD_eq_default _ _ (by omega)]
  rfl

theorem suraSpec_eq_specExtract (data : QuranData) (ini end_ : RCoord)
    (h0 : 0 ≤ ini.sura) :
    suraSpec data ini end_ = specExtract data ini end_ := by
  have hG : ∀ p ∈ enumF 0 data.indexes,
      suraAt data ini end_ (p.1 : Int) = verseSpec data ini end_ (p.1 : Int) p.2 0 := by
    intro p hp
    obtain ⟨h1, h2, h3⟩ := enumF_mem [] hp
    unfold suraAt pyGet
    rw [if_pos (by omega)]
    have ht : ((p.1 : Int)).toNat = p.1 - 0 := by omega
    rw [ht, h3]
  rw [specExtract_eq_flat,
    enumF_flatMap_eq _ (suraAt data ini end_) data.indexes 0 fun p hp => hG p hp]
  unfold suraSpec
  set G := suraAt data ini end_ with hGdef
  set L := data.indexes.length with hL
  set n2 := (end_.sura + 1 - ini.sura).toNat with hn2
  set hi := max (L : Int) (ini.sura + n2) with hhi
  have e1 : (intRange ((0 : Nat) : Int) L).flatMap G = (intRange 0 (hi.toNat)).flatMap G := by
    have hk : hi.toNat = L + (hi - L).toNat := by omega
    rw [hk]
    refine (intRange_flatMap_extend_back G L (hi - L).toNat 0 ?_).symm
    intro s hs1 hs2
    exact suraAt_nil_big (by omega)
  have e2 : (intRange ini.sura n2).flatMap G = (intRange 0 (hi.toNat)).flatMap G := by
    have hfront : (intRange (ini.sura - ini.sura.toNat) (ini.sura.toNat + n2)).flatMap G =
        (intRange ini.sura n2).flatMap G := by
      refine intRange_flatMap_extend_front G ini.sura.toNat n2 ini.sura ?_
      intro s hs1 hs2
      exact suraAt_nil_lt hs2
    have hz : ini.sura - ini.sura.toNat = 0 := by omega
    rw [hz] at hfront
    rw [← hfront]
    have hk : hi.toNat = (ini.sura.toNat + n2) + (hi - (ini.sura + n2)).toNat := by omega
    rw [hk]
    refine (intRange_flatMap_extend_back G (ini.sura.toNat + n2) _ 0 ?_).symm
    intro s hs1 hs2
    refine suraAt_nil_gt ?_
    omega
  rw [e2, ← e1]

/-- The new _extract_seq refines the specification extraction: for a resolved
range whose initial coordinate is 0-based (sura nonnegative), it yields
exactly the in-range leaves in traversal order. -/
theorem extract_seq_eq_specExtract (data : QuranData) (ini end_ : RCoord)
    (h0 : 0 ≤ ini.sura) :
    extract_seq data (toIndex ini) (toIndex end_) = specExtract data ini end_ :=
  (extract_eq_suraSpec data ini end_).trans (suraSpec_eq_specExtract data ini end_ h0)

/-! Strict lexicographic sortedness of the emitted sequence. -/

/-- Strict lexicographic order on 0-based leaf coordinates. -/
def lexLtN (a b : Nat × Nat × Nat × Nat) : Prop :=
  a.1 < b.1 ∨ (a.1 = b.1 ∧ (a.2.1 < b.2.1 ∨ (a.2.1 = b.2.1 ∧
    (a.2.2.1 < b.2.2.1 ∨ (a.2.2.1 = b.2.2.1 ∧ a.2.2.2 < b.2.2.2)))))

theorem enumF_pairwise (l : List α) (k : Nat) :
    List.Pairwise (fun p q : Nat × α => p.1 < q.1) (enumF k l) := by
  induction l generalizing k with
  | nil => exact List.Pairwise.nil
  | cons x xs ih =>
    refine List.pairwise_cons.mpr ⟨?_, ih (k + 1)⟩
    intro q hq
    have := (enumF_mem x hq).1
    omega

theorem pairwise_flatMap {l : List α} {f : α → List β} {R : β → β → Prop}
    (h1 : ∀ a ∈ l, List.Pairwise R (f a))
    (h2 : List.Pairwise (fun a b => ∀ x ∈ f a, ∀ y ∈ f b, R x y) l) :
    List.Pairwise R (l.flatMap f) := by
  induction l with
  | nil => exact List.Pairwise.nil
  | cons a l ih =>
    rw [List.flatMap_cons, List.pairwise_append]
    obtain ⟨hcross, h2t⟩ := List.pairwise_cons.mp h2
    refine ⟨h1 a (by simp), ih (fun b hb => h1 b (by simp [hb])) h2t, ?_⟩
    intro x hx y hy
    obtain ⟨b, hb, hyb⟩ := List.mem_flatMap.mp hy
    exact hcross b hb x hx y hyb

theorem enumLeaves_pairwise (data : QuranData) :
    List.Pairwise (fun p q : (Nat × Nat × Nat × Nat) × Nat => lexLtN p.1 q.1)
      (enumLeaves data) := by
  unfold enumLeaves
  refine pairwise_flatMap (fun sp _ => ?_) ?_
  · refine pairwise_flatMap (fun vp _ => ?_) ?_
    · refine pairwise_flatMap (fun wp _ => ?_) ?_
      · rw [List.pairwise_map]
        refine (enumF_pairwise wp.2 0).imp ?_
        intro bp bq h
        exact Or.inr ⟨rfl, Or.inr ⟨rfl, Or.inr ⟨rfl, h⟩⟩⟩
      · refine (enumF_pairwise vp.2 0).imp ?_
        intro wp wq h x hx y hy
        simp only [List.mem_map] at hx hy
        obtain ⟨bp, _, rfl⟩ := hx
        obtain ⟨bq, _, rfl⟩ := hy
        exact Or.inr ⟨rfl, Or.inr ⟨rfl, Or.inl h⟩⟩
    · refine (enumF_pairwise sp.2 0).imp ?_
      intro vp vq h x hx y hy
      simp only [List.mem_flatMap, List.mem_map] at hx hy
      obtain ⟨wp, _, bp, _, rfl⟩ := hx
      obtain ⟨wq, _, bq, _, rfl⟩ := hy
      exact Or.inr ⟨rfl, Or.inl h⟩
  · refine (enumF_pairwise data.indexes 0).imp ?_
    intro sp sq h x hx y hy
    simp only [List.mem_flatMap, List.mem_map] at hx hy
    obtain ⟨vp, _, wp, _, bp, _, rfl⟩ := hx
    obtain ⟨vq, _, wq, _, bq, _, rfl⟩ := hy
    exact Or.inl h

theorem specExtract_pairwise (data : QuranData) (ini end_ : RCoord) :
    List.Pairwise (fun a b => lexLt (coordOf a) (coordOf b))
      (specExtract data ini end_) := by
  unfold specExtract
  rw [List.pairwise_map]
  refine List.Pairwise.imp ?_
    (List.Pairwise.sublist (List.filter_sublist _) (enumLeaves_pairwise data))
  intro p q h
  simp only [coordOf, mkLeaf, mkBlock, lexLt, lexLtN, Option.getD_some] at h ⊢
  omega

/-! Concrete structures used to witness the theorems: one sura whose first
verse has two words (two blocks then one block) and whose second verse has
one word with one block. -/

def data1 : QuranData :=
  { indexes := [[[[0, 1], [2]], [[3]]]],
    blocks := [("a", "a", "a", "a"), ("b", "b", "b", "b"),
               ("c", "c", "c", "c"), ("d", "d", "d", "d")] }

/-- C1: for every 4-level nested structure and every resolved 0-based
inclusive range with ini before end lexicographically, _extract_seq of
src/qrn/mushaf.py yields exactly the leaves whose coordinate lies within the
range under lexicographic order, in strictly increasing lexicographic order,
each tagged with its 1-based coordinate. -/
theorem C1_extract_exact (data : QuranData) (ini end_ : RCoord)
    (h0 : 0 ≤ ini.sura) (h1 : 0 ≤ ini.verse) (h2 : 0 ≤ ini.word) (h3 : 0 ≤ ini.block)
    (hle : lexLe ini end_) :
    extract_seq data (toIndex ini) (toIndex end_) = specExtract data ini end_ ∧
    List.Pairwise (fun a b => lexLt (coordOf a) (coordOf b))
      (extract_seq data (toIndex ini) (toIndex end_)) := by
  have h := extract_seq_eq_specExtract data ini end_ h0
  refine ⟨h, ?_⟩
  rw [h]
  exact specExtract_pairwise data ini end_

theorem C1_extract_exact_witness :
    (0 : Int) ≤ 0 ∧ lexLe ⟨0, 0, 0, 0⟩ ⟨0, 1, 0, 0⟩ ∧
    (extract_seq data1 (toIndex ⟨0, 0, 0, 0⟩) (toIndex ⟨0, 1, 0, 0⟩) =
        specExtract data1 ⟨0, 0, 0, 0⟩ ⟨0, 1, 0, 0⟩ ∧
      List.Pairwise (fun a b => lexLt (coordOf a) (coordOf b))
        (extract_seq data1 (toIndex ⟨0, 0, 0, 0⟩) (toIndex ⟨0, 1, 0, 0⟩))) :=
  ⟨by decide, by decide,
    C1_extract_exact data1 ⟨0, 0, 0, 0⟩ ⟨0, 1, 0, 0⟩
      (by decide) (by decide) (by decide) (by decide) (by decide)⟩

/-- C2: the two near-duplicate implementations of _extract_seq are not
extensionally equal.  On a structure whose end sura has an initial verse
differing from the final verse, the older src/mushaf.py version, whose
word-level stop check compares the verse against ini_verse instead of
end_verse, truncates the sequence, while the src/qrn/mushaf.py version
agrees with the specification extraction on the same range. -/
theorem C2_implementations_differ :
    extract_seq data1 ⟨0, 0, 0, some 0⟩ ⟨0, 1, 0, some 0⟩ =
      specExtract data1 ⟨0, 0, 0, 0⟩ ⟨0, 1, 0, 0⟩ ∧
    extract_seq data1 ⟨0, 0, 0, some 0⟩ ⟨0, 1, 0, some 0⟩ ≠
      extract_seq_old data1 ⟨⟨0, 0, 0, some 0⟩, ⟨0, 1, 0, some 0⟩⟩ := by
  constructor
  · exact extract_seq_eq_specExtract data1 ⟨0, 0, 0, 0⟩ ⟨0, 1, 0, 0⟩ (by decide)
  · decide

/-- C7: for every structure and resolved range whose initial coordinate is
strictly greater than the final one lexicographically, _extract_seq of
src/qrn/mushaf.py yields the empty sequence. -/
theorem C7_reversed_empty (data : QuranData) (ini end_ : RCoord)
    (h0 : 0 ≤ ini.sura) (hrev : lexLt end_ ini) :
    extract_seq data (toIndex ini) (toIndex end_) = [] := by
  rw [extract_seq_eq_specExtract data ini end_ h0]
  unfold specExtract
  have hnone : ∀ c : RCoord, ¬ inRange ini end_ c := by
    intro c hc
    simp only [inRange, lexLe] at hc
    simp only [lexLt] at hrev
    omega
  rw [List.filter_eq_nil_iff.mpr fun p _ => by simpa using hnone (toR p.1)]
  rfl

theorem C7_reversed_empty_witness :
    (0 : Int) ≤ (0 : Int) ∧ lexLt (⟨0, 0, 0, 0⟩ : RCoord) ⟨0, 1, 0, 0⟩ ∧
    extract_seq data1 (toIndex ⟨0, 1, 0, 0⟩) (toIndex ⟨0, 0, 0, 0⟩) = [] :=
  ⟨by decide, by decide,
    C7_reversed_empty data1 ⟨0, 1, 0, 0⟩ ⟨0, 0, 0, 0⟩ (by decide) (by decide)⟩

/-! A fully resolved range with equal endpoints selects exactly one leaf. -/

theorem flatMap_nil_of (l : List γ) (f : γ → List β) (h : ∀ x ∈ l, f x = []) :
    l.flatMap f = [] := by
  induction l with
  | nil => rfl
  | cons x xs ih =>
    rw [List.flatMap_cons, h x (by simp), ih fun y hy => h y (by simp [hy])]
    rfl

theorem flatMap_enumF_single (d : α) (F : Nat → α → List β) :
    ∀ (l : List α) (k j : Nat), j < l.length →
      (∀ p ∈ enumF k l, p.1 ≠ k + j → F p.1 p.2 = []) →
      (enumF k l).flatMap (fun p => F p.1 p.2) = F (k + j) (l.getD j d) := by
  intro l
  induction l with
  | nil => intro k j hj _; simp at hj
  | cons x xs ih =>
    intro k j hj hvan
    rw [show enumF k (x :: xs) = (k, x) :: enumF (k + 1) xs from rfl, List.flatMap_cons]
    cases j with
    | zero =>
      rw [flatMap_nil_of _ _ fun p hp =>
        hvan p (by simp [enumF]; right; exact hp) (by have := (enumF_mem x hp).1; omega)]
      simp
    | succ m =>
      have h0 : F k x = [] := hvan (k, x) (by simp [enumF]) (by omega)
      have hrec := ih (k + 1) m (by simpa using hj)
        fun p hp hne => hvan p (by simp [enumF]; right; exact hp) (by omega)
      have harith : k + 1 + m = k + (m + 1) := by omega
      rw [h0, hrec, harith, List.getD_cons_succ]
      rfl

theorem blockSpec_single {data : QuranData} {ini end_ : RCoord} {s : Int} {v w : Nat} :
    ∀ (bs : List Nat) (b0 j : Nat), j < bs.length →
      (∀ b : Nat, b0 ≤ b →
        (inRange ini end_ ⟨s, (v : Int), (w : Int), (b : Int)⟩ ↔ b = b0 + j)) →
      blockSpec data ini end_ s v w bs b0 =
        [mkBlock data s v w (b0 + j) (bs.getD j 0)] := by
  intro bs
  induction bs with
  | nil => intro b0 j hj _; simp at hj
  | cons bid bs ih =>
    intro b0 j hj hiff
    cases j with
    | zero =>
      rw [blockSpec_cons, if_pos ((hiff b0 le_rfl).mpr (by omega)),
        blockSpec_nil bs (b0 + 1) fun b hb hc => by
          have := (hiff b (by omega)).mp hc; omega]
      simp
    | succ m =>
      rw [blockSpec_cons, if_neg fun hc => by have := (hiff b0 le_rfl).mp hc; omega]
      have hrec := ih (b0 + 1) m (by simpa using hj)
        fun b hb => by rw [hiff b (by omega)]; omega
      have harith : b0 + 1 + m = b0 + (m + 1) := by omega
      rw [hrec, harith, List.getD_cons_succ]
      rfl

theorem inRange_self_iff (cs cv cw cb : Nat) (s v w b : Int) :
    inRange ⟨(cs : Int), (cv : Int), (cw : Int), (cb : Int)⟩
        ⟨(cs : Int), (cv : Int), (cw : Int), (cb : Int)⟩ ⟨s, v, w, b⟩ ↔
      (s = (cs : Int) ∧ v = (cv : Int) ∧ w = (cw : Int) ∧ b = (cb : Int)) := by
  simp only [inRange, lexLe]
  omega

theorem specExtract_single (data : QuranData) (cs cv cw cb : Nat)
    (h1 : cs < data.indexes.length)
    (h2 : cv < (data.indexes.getD cs []).length)
    (h3 : cw < ((data.indexes.getD cs []).getD cv []).length)
    (h4 : cb < (((data.indexes.getD cs []).getD cv []).getD cw []).length) :
    specExtract data ⟨(cs : Int), (cv : Int), (cw : Int), (cb : Int)⟩
        ⟨(cs : Int), (cv : Int), (cw : Int), (cb : Int)⟩ =
      [mkBlock data (cs : Int) cv cw cb
        ((((data.indexes.getD cs []).getD cv []).getD cw []).getD cb 0)] := by
  set c : RCoord := ⟨(cs : Int), (cv : Int), (cw : Int), (cb : Int)⟩ with hc
  have vanS : ∀ p ∈ enumF 0 data.indexes, p.1 ≠ 0 + cs →
      verseSpec data c c ((p.1 : Nat) : Int) p.2 0 = [] := by
    intro p hp hne
    refine verseSpec_nil _ 0 fun vi _ wi b => ?_
    rw [hc, inRange_self_iff]
    intro hx
    exact hne (by omega)
  have e1 := flatMap_enumF_single []
    (fun s1 svs => verseSpec data c c (s1 : Int) svs 0) data.indexes 0 cs h1 vanS
  rw [Nat.zero_add] at e1
  have vanV : ∀ p ∈ enumF 0 (data.indexes.getD cs []), p.1 ≠ 0 + cv →
      wordSpec data c c (cs : Int) p.1 p.2 0 = [] := by
    intro p hp hne
    refine wordSpec_nil _ 0 fun wi _ b => ?_
    rw [hc, inRange_self_iff]
    intro hx
    exact hne (by omega)
  have e2 := flatMap_enumF_single []
    (fun v1 vvs => wordSpec data c c (cs : Int) v1 vvs 0)
    (data.indexes.getD cs []) 0 cv h2 vanV
  rw [Nat.zero_add] at e2
  have vanW : ∀ p ∈ enumF 0 ((data.indexes.getD cs []).getD cv []), p.1 ≠ 0 + cw →
      blockSpec data c c (cs : Int) cv p.1 p.2 0 = [] := by
    intro p hp hne
    refine blockSpec_nil _ 0 fun b _ => ?_
    rw [hc, inRange_self_iff]
    intro hx
    exact hne (by omega)
  have e3 := flatMap_enumF_single []
    (fun w1 wvs => blockSpec data c c (cs : Int) cv w1 wvs 0)
    ((data.indexes.getD cs []).getD cv []) 0 cw h3 vanW
  rw [Nat.zero_add] at e3
  have iffB : ∀ b : Nat, 0 ≤ b →
      (inRange c c ⟨(cs : Int), (cv : Int), (cw : Int), (b : Int)⟩ ↔ b = 0 + cb) := by
    intro b _
    rw [hc, inRange_self_iff]
    omega
  have e4 := @blockSpec_single data c c ((cs : Nat) : Int) cv cw
    (((data.indexes.getD cs []).getD cv []).getD cw []) 0 cb h4 iffB
  rw [Nat.zero_add] at e4
  calc specExtract data c c
      = (enumF 0 data.indexes).flatMap
          (fun sp => verseSpec data c c (sp.1 : Int) sp.2 0) := specExtract_eq_flat data c c
    _ = verseSpec data c c (cs : Int) (data.indexes.getD cs []) 0 := e1
    _ = wordSpec data c c (cs : Int) cv ((data.indexes.getD cs []).getD cv []) 0 := e2
    _ = blockSpec data c c (cs : Int) cv cw
          (((data.indexes.getD cs []).getD cv []).getD cw []) 0 := e3
    _ = [mkBlock data (cs : Int) cv cw cb
          ((((data.indexes.getD cs []).getD cv []).getD cw []).getD cb 0)] := e4

/-- C8: for every structure and fully resolved in-bounds range with equal
endpoints (block specified), _extract_seq yields exactly one record, the
leaf stored in the structure at that coordinate, looked up through the
block-id indirection from the indexes array into the blocks array. -/
theorem C8_single_leaf (data : QuranData) (cs cv cw cb : Nat)
    (h1 : cs < data.indexes.length)
    (h2 : cv < (data.indexes.getD cs []).length)
    (h3 : cw < ((data.indexes.getD cs []).getD cv []).length)
    (h4 : cb < (((data.indexes.getD cs []).getD cv []).getD cw []).length) :
    extract_seq data (toIndex ⟨(cs : Int), (cv : Int), (cw : Int), (cb : Int)⟩)
        (toIndex ⟨(cs : Int), (cv : Int), (cw : Int), (cb : Int)⟩) =
      [mkBlock data (cs : Int) cv cw cb
        ((((data.indexes.getD cs []).getD cv []).getD cw []).getD cb 0)] := by
  rw [extract_seq_eq_specExtract data _ _ (by positivity)]
  exact specExtract_single data cs cv cw cb h1 h2 h3 h4

theorem C8_single_leaf_witness :
    (1 < (data1.indexes.getD 0 []).length ∧
      0 < ((data1.indexes.getD 0 []).getD 1 []).length ∧
      0 < (((data1.indexes.getD 0 []).getD 1 []).getD 0 []).length) ∧
    extract_seq data1 (toIndex ⟨0, 1, 0, 0⟩) (toIndex ⟨0, 1, 0, 0⟩) =
      [mkBlock data1 0 1 0 0
        ((((data1.indexes.getD 0 []).getD 1 []).getD 0 []).getD 0 0)] :=
  ⟨⟨by decide, by decide, by decide⟩,
    C8_single_leaf data1 0 1 0 0 (by decide) (by decide) (by decide) (by decide)⟩

/-! Clamping of out-of-bounds components and resolution of the sentinel
"last" (-1) on the end coordinate. -/

/-- Number of verses of the sura with 1-based number s. -/
def verseCountAt (data : QuranData) (s : Int) : Nat :=
  (data.indexes.getD (s - 1).toNat []).length

/-- Number of words of the verse with 1-based coordinate (s, v). -/
def wordCountAt (data : QuranData) (s v : Int) : Nat :=
  ((data.indexes.getD (s - 1).toNat []).getD (v - 1).toNat []).length

/-- Number of blocks of the word with 1-based coordinate (s, v, w). -/
def blockCountAt (data : QuranData) (s v w : Int) : Nat :=
  (((data.indexes.getD (s - 1).toNat []).getD (v - 1).toNat []).getD (w - 1).toNat []).length

/-- First if-statement of _correct_out_of_bounds (src/qrn/mushaf.py lines 99
to 105): clamp the sura to the sura count. -/
def clamp_sura (ind : Index) (data : QuranData) : Index :=
  if ind.sura > (data.indexes.length : Int)
    then { ind with sura := (data.indexes.length : Int) } else ind

/-- Second if-statement (lines 107 to 113): clamp the verse against the
already clamped sura. -/
def clamp_verse (ind : Index) (data : QuranData) : Index :=
  if ind.verse > ((pyGet [] data.indexes (ind.sura - 1)).length : Int)
    then { ind with verse := ((pyGet [] data.indexes (ind.sura - 1)).length : Int) } else ind

/-- Third if-statement (lines 115 to 121): clamp the word. -/
def clamp_word (ind : Index) (data : QuranData) : Index :=
  if ind.word > ((pyGet [] (pyGet [] data.indexes (ind.sura - 1)) (ind.verse - 1)).length : Int)
    then { ind with
      word := ((pyGet [] (pyGet [] data.indexes (ind.sura - 1)) (ind.verse - 1)).length : Int) }
    else ind

/-- Fourth if-statement (lines 123 to 129): clamp the block.  When the block
is None, Python would raise TypeError at the comparison; the model leaves the
index unchanged and no claim reaches that case. -/
def clamp_blk (ind : Index) (data : QuranData) : Index :=
  match ind.block with
  | some b =>
    if b > ((pyGet [] (pyGet [] (pyGet [] data.indexes (ind.sura - 1)) (ind.verse - 1))
        (ind.word - 1)).length : Int)
      then { ind with
        block := some ((pyGet [] (pyGet [] (pyGet [] data.indexes (ind.sura - 1))
          (ind.verse - 1)) (ind.word - 1)).length : Int) }
      else ind
  | none => ind

/-- _correct_out_of_bounds of src/qrn/mushaf.py (lines 88 to 129): the four
sequential clamping if-statements, each reading the components already
corrected by the previous ones. -/
def correct_out_of_bounds (ind : Index) (data : QuranData) : Index :=
  clamp_blk (clamp_word (clamp_verse (clamp_sura ind data) data) data) data

/-- Resolution of a -1 sura on the end coordinate (src/qrn/mushaf.py lines
185 to 186). -/
def resolve_sura (e : Index) (data : QuranData) : Index :=
  if e.sura = -1 then { e with sura := (data.indexes.length : Int) } else e

/-- Resolution of a -1 verse against the already resolved sura (lines 188
to 189). -/
def resolve_verse (e : Index) (data : QuranData) : Index :=
  if e.verse = -1
    then { e with verse := ((pyGet [] data.indexes (e.sura - 1)).length : Int) } else e

/-- Resolution of a -1 word against the already resolved sura and verse
(lines 191 to 192). -/
def resolve_word (e : Index) (data : QuranData) : Index :=
  if e.word = -1
    then { e with
      word := ((pyGet [] (pyGet [] data.indexes (e.sura - 1)) (e.verse - 1)).length : Int) }
    else e

/-- Resolution of a -1 block against the already resolved sura, verse and
word (lines 194 to 195).  A None block compares unequal to -1 in Python, so
it passes through unchanged. -/
def resolve_blk (e : Index) (data : QuranData) : Index :=
  match e.block with
  | some b =>
    if b = -1
      then { e with
        block := some ((pyGet [] (pyGet [] (pyGet [] data.indexes (e.sura - 1))
          (e.verse - 1)) (e.word - 1)).length : Int) }
      else e
  | none => e

/-- The sentinel-resolution stage of get_text (src/qrn/mushaf.py lines 184
to 195), applied only to the end coordinate, level by level. -/
def resolve_end (data : QuranData) (e : Index) : Index :=
  resolve_blk (resolve_word (resolve_verse (resolve_sura e data) data) data) data

/-- A structure is proper when it is nonempty at every level, as the three
shipped mushaf encodings are. -/
def ProperData (data : QuranData) : Prop :=
  0 < data.indexes.length ∧
  ∀ sv ∈ data.indexes, 0 < sv.length ∧ ∀ vv ∈ sv, 0 < vv.length ∧ ∀ wv ∈ vv, 0 < wv.length

instance (data : QuranData) : Decidable (ProperData data) := by
  unfold ProperData; exact inferInstance

/-! Componentwise behaviour of the clamping steps. -/

theorem clamp_sura_sura (ind : Index) (data : QuranData) :
    (clamp_sura ind data).sura = min ind.sura (data.indexes.length : Int) := by
  unfold clamp_sura
  split
  next h => show (data.indexes.length : Int) = _; omega
  next h => show ind.sura = _; omega

theorem clamp_sura_verse (ind : Index) (data : QuranData) :
    (clamp_sura ind data).verse = ind.verse := by
  unfold clamp_sura; split <;> rfl

theorem clamp_sura_word (ind : Index) (data : QuranData) :
    (clamp_sura ind data).word = ind.word := by
  unfold clamp_sura; split <;> rfl

theorem clamp_sura_block (ind : Index) (data : QuranData) :
    (clamp_sura ind data).block = ind.block := by
  unfold clamp_sura; split <;> rfl

theorem clamp_verse_verse (ind : Index) (data : QuranData) :
    (clamp_verse ind data).verse =
      min ind.verse ((pyGet [] data.indexes (ind.sura - 1)).length : Int) := by
  unfold clamp_verse
  split
  next h => show ((pyGet [] data.indexes (ind.sura - 1)).length : Int) = _; omega
  next h => show ind.verse = _; omega

theorem clamp_verse_sura (ind : Index) (data : QuranData) :
    (clamp_verse ind data).sura = ind.sura := by
  unfold clamp_verse; split <;> rfl

theorem clamp_verse_word (ind : Index) (data : QuranData) :
    (clamp_verse ind data).word = ind.word := by
  unfold clamp_verse; split <;> rfl

theorem clamp_verse_block (ind : Index) (data : QuranData) :
    (clamp_verse ind data).block = ind.block := by
  unfold clamp_verse; split <;> rfl

theorem clamp_word_word (ind : Index) (data : QuranData) :
    (clamp_word ind data).word = min ind.word
      ((pyGet [] (pyGet [] data.indexes (ind.sura - 1)) (ind.verse - 1)).length : Int) := by
  unfold clamp_word
  split
  next h =>
    show ((pyGet [] (pyGet [] data.indexes (ind.sura - 1)) (ind.verse - 1)).length : Int) = _
    omega
  next h => show ind.word = _; omega

theorem clamp_word_sura (ind : Index) (data : QuranData) :
    (clamp_word ind data).sura = ind.sura := by
  unfold clamp_word; split <;> rfl

theorem clamp_word_verse (ind : Index) (data : QuranData) :
    (clamp_word ind data).verse = ind.verse := by
  unfold clamp_word; split <;> rfl

theorem clamp_word_block (ind : Index) (data : QuranData) :
    (clamp_word ind data).block = ind.block := by
  unfold clamp_word; split <;> rfl

theorem clamp_blk_block (ind : Index) (data : QuranData) (b : Int) (h : ind.block = some b) :
    (clamp_blk ind data).block = some (min b
      ((pyGet [] (pyGet [] (pyGet [] data.indexes (ind.sura - 1)) (ind.verse - 1))
        (ind.word - 1)).length : Int)) := by
  simp only [clamp_blk, h]
  split
  next hgt => simp; omega
  next hgt => rw [h]; simp; omega

theorem clamp_blk_sura (ind : Index) (data : QuranData) :
    (clamp_blk ind data).sura = ind.sura := by
  rcases h : ind.block with _ | b
  · simp [clamp_blk, h]
  · simp only [clamp_blk, h]
    split <;> rfl

theorem clamp_blk_verse (ind : Index) (data : QuranData) :
    (clamp_blk ind data).verse = ind.verse := by
  rcases h : ind.block with _ | b
  · simp [clamp_blk, h]
  · simp only [clamp_blk, h]
    split <;> rfl

theorem clamp_blk_word (ind : Index) (data : QuranData) :
    (clamp_blk ind data).word = ind.word := by
  rcases h : ind.block with _ | b
  · simp [clamp_blk, h]
  · simp only [clamp_blk, h]
    split <;> rfl

/-! The pyGet lookups of the clamping and resolution code hit the true counts
once the enclosing components are positive. -/

theorem pyGet_len_verse (data : QuranData) (s : Int) (h : 1 ≤ s) :
    (pyGet [] data.indexes (s - 1)).length = verseCountAt data s := by
  unfold pyGet verseCountAt
  rw [if_pos (by omega : (0 : Int) ≤ s - 1)]

theorem pyGet_len_word (data : QuranData) (s v : Int) (h1 : 1 ≤ s) (h2 : 1 ≤ v) :
    (pyGet [] (pyGet [] data.indexes (s - 1)) (v - 1)).length = wordCountAt data s v := by
  unfold pyGet wordCountAt
  rw [if_pos (by omega : (0 : Int) ≤ s - 1), if_pos (by omega : (0 : Int) ≤ v - 1)]

theorem pyGet_len_blk (data : QuranData) (s v w : Int) (h1 : 1 ≤ s) (h2 : 1 ≤ v)
    (h3 : 1 ≤ w) :
    (pyGet [] (pyGet [] (pyGet [] data.indexes (s - 1)) (v - 1)) (w - 1)).length =
      blockCountAt data s v w := by
  unfold pyGet blockCountAt
  rw [if_pos (by omega : (0 : Int) ≤ s - 1), if_pos (by omega : (0 : Int) ≤ v - 1),
    if_pos (by omega : (0 : Int) ≤ w - 1)]

theorem verseCount_pos (data : QuranData) (hp : ProperData data) (s : Int)
    (h1 : 1 ≤ s) (h2 : s ≤ (data.indexes.length : Int)) : 0 < verseCountAt data s := by
  unfold verseCountAt
  have hlt : (s - 1).toNat < data.indexes.length := by omega
  rw [List.getD_eq_getElem _ _ hlt]
  exact (hp.2 _ (List.getElem_mem hlt)).1

theorem wordCount_pos (data : QuranData) (hp : ProperData data) (s v : Int)
    (h1 : 1 ≤ s) (h2 : s ≤ (data.indexes.length : Int))
    (h3 : 1 ≤ v) (h4 : v ≤ (verseCountAt data s : Int)) : 0 < wordCountAt data s v := by
  unfold wordCountAt
  have hlt : (s - 1).toNat < data.indexes.length := by omega
  have hvlt : (v - 1).toNat < (data.indexes.getD (s - 1).toNat []).length := by
    unfold verseCountAt at h4; omega
  rw [List.getD_eq_getElem _ _ hlt] at hvlt ⊢
  rw [List.getD_eq_getElem _ _ hvlt]
  exact ((hp.2 _ (List.getElem_mem hlt)).2 _ (List.getElem_mem hvlt)).1

theorem blockCount_pos (data : QuranData) (hp : ProperData data) (s v w : Int)
    (h1 : 1 ≤ s) (h2 : s ≤ (data.indexes.length : Int))
    (h3 : 1 ≤ v) (h4 : v ≤ (verseCountAt data s : Int))
    (h5 : 1 ≤ w) (h6 : w ≤ (wordCountAt data s v : Int)) : 0 < blockCountAt data s v w := by
  unfold blockCountAt
  have hlt : (s - 1).toNat < data.indexes.length := by omega
  have hvlt : (v - 1).toNat < (data.indexes.getD (s - 1).toNat []).length := by
    unfold verseCountAt at h4; omega
  have hwlt : (w - 1).toNat <
      ((data.indexes.getD (s - 1).toNat []).getD (v - 1).toNat []).length := by
    unfold wordCountAt at h6; omega
  rw [List.getD_eq_getElem _ _ hlt] at hvlt hwlt ⊢
  rw [List.getD_eq_getElem _ _ hvlt] at hwlt ⊢
  rw [List.getD_eq_getElem _ _ hwlt]
  exact ((hp.2 _ (List.getElem_mem hlt)).2 _ (List.getElem_mem hvlt)).2 _
    (List.getElem_mem hwlt)

/-- C6: for every 1-based index with positive components, _correct_out_of_bounds
clamps each component that exceeds the extent of its level down to the maximum
valid value there, computed inside the already clamped enclosing coordinate,
leaves in-bounds components unchanged, never fails, and afterwards every
component is at most the extent of its level. -/
theorem C6_clamp (data : QuranData) (ind : Index) (b : Int)
    (hp : ProperData data) (hs : 1 ≤ ind.sura) (hv : 1 ≤ ind.verse) (hw : 1 ≤ ind.word)
    (hbs : ind.block = some b) (hb1 : 1 ≤ b) :
    (correct_out_of_bounds ind data).sura = min ind.sura (data.indexes.length : Int) ∧
    (correct_out_of_bounds ind data).verse =
      min ind.verse (verseCountAt data (correct_out_of_bounds ind data).sura : Int) ∧
    (correct_out_of_bounds ind data).word =
      min ind.word (wordCountAt data (correct_out_of_bounds ind data).sura
        (correct_out_of_bounds ind data).verse : Int) ∧
    (correct_out_of_bounds ind data).block =
      some (min b (blockCountAt data (correct_out_of_bounds ind data).sura
        (correct_out_of_bounds ind data).verse (correct_out_of_bounds ind data).word : Int)) ∧
    1 ≤ (correct_out_of_bounds ind data).sura ∧
    (correct_out_of_bounds ind data).sura ≤ (data.indexes.length : Int) ∧
    1 ≤ (correct_out_of_bounds ind data).verse ∧
    (correct_out_of_bounds ind data).verse ≤
      (verseCountAt data (correct_out_of_bounds ind data).sura : Int) ∧
    1 ≤ (correct_out_of_bounds ind data).word ∧
    (correct_out_of_bounds ind data).word ≤
      (wordCountAt data (correct_out_of_bounds ind data).sura
        (correct_out_of_bounds ind data).verse : Int) ∧
    1 ≤ min b (blockCountAt data (correct_out_of_bounds ind data).sura
      (correct_out_of_bounds ind data).verse (correct_out_of_bounds ind data).word : Int) ∧
    min b (blockCountAt data (correct_out_of_bounds ind data).sura
      (correct_out_of_bounds ind data).verse (correct_out_of_bounds ind data).word : Int) ≤
      (blockCountAt data (correct_out_of_bounds ind data).sura
        (correct_out_of_bounds ind data).verse (correct_out_of_bounds ind data).word : Int) := by
  have hL : 1 ≤ (data.indexes.length : Int) := by have := hp.1; omega
  unfold correct_out_of_bounds
  set i1 := clamp_sura ind data with hi1
  set i2 := clamp_verse i1 data with hi2
  set i3 := clamp_word i2 data with hi3
  have e1s : i1.sura = min ind.sura (data.indexes.length : Int) := clamp_sura_sura ind data
  have e1v : i1.verse = ind.verse := clamp_sura_verse ind data
  have e1w : i1.word = ind.word := clamp_sura_word ind data
  have e1b : i1.block = ind.block := clamp_sura_block ind data
  have hs1 : 1 ≤ i1.sura := by rw [e1s]; omega
  have hs2 : i1.sura ≤ (data.indexes.length : Int) := by rw [e1s]; omega
  have e2v : i2.verse = min ind.verse (verseCountAt data i1.sura : Int) := by
    rw [hi2, clamp_verse_verse, e1v, pyGet_len_verse data _ hs1]
  have e2s : i2.sura = i1.sura := clamp_verse_sura i1 data
  have e2w : i2.word = ind.word := by rw [hi2, clamp_verse_word, e1w]
  have e2b : i2.block = ind.block := by rw [hi2, clamp_verse_block, e1b]
  have hVpos := verseCount_pos data hp i1.sura hs1 hs2
  have hv1 : 1 ≤ i2.verse := by rw [e2v]; omega
  have hv2 : i2.verse ≤ (verseCountAt data i1.sura : Int) := by rw [e2v]; omega
  have e3w : i3.word = min ind.word (wordCountAt data i1.sura i2.verse : Int) := by
    rw [hi3, clamp_word_word, e2w, e2s, pyGet_len_word data i1.sura i2.verse hs1 hv1]
  have e3s : i3.sura = i1.sura := by rw [hi3, clamp_word_sura, e2s]
  have e3v : i3.verse = i2.verse := clamp_word_verse i2 data
  have e3b : i3.block = ind.block := by rw [hi3, clamp_word_block, e2b]
  have hWpos := wordCount_pos data hp i1.sura i2.verse hs1 hs2 hv1 hv2
  have hw1 : 1 ≤ i3.word := by rw [e3w]; omega
  have hw2 : i3.word ≤ (wordCountAt data i1.sura i2.verse : Int) := by rw [e3w]; omega
  have e4b : (clamp_blk i3 data).block =
      some (min b (blockCountAt data i1.sura i2.verse i3.word : Int)) := by
    rw [clamp_blk_block i3 data b (by rw [e3b]; exact hbs)]
    rw [e3s, e3v, pyGet_len_blk data i1.sura i2.verse i3.word hs1 hv1 hw1]
  have e4s : (clamp_blk i3 data).sura = i1.sura := by rw [clamp_blk_sura, e3s]
  have e4v : (clamp_blk i3 data).verse = i2.verse := by rw [clamp_blk_verse, e3v]
  have e4w : (clamp_blk i3 data).word = i3.word := clamp_blk_word i3 data
  have hBpos := blockCount_pos data hp i1.sura i2.verse i3.word hs1 hs2 hv1 hv2 hw1 hw2
  refine ⟨?_, ?_, ?_, ?_, ?_, ?_, ?_, ?_, ?_, ?_, ?_, ?_⟩
  · rw [e4s, e1s]
  · rw [e4v, e4s, e2v]
  · rw [e4w, e4s, e4v, e3w]
  · rw [e4b, e4s, e4v, e4w]
  · rw [e4s]; exact hs1
  · rw [e4s]; exact hs2
  · rw [e4v]; exact hv1
  · rw [e4v, e4s]; exact hv2
  · rw [e4w]; exact hw1
  · rw [e4w, e4s, e4v]; exact hw2
  · rw [e4s, e4v, e4w]; omega
  · rw [e4s, e4v, e4w]; omega

theorem C6_clamp_witness :
    (ProperData data1 ∧ 1 ≤ (Index.mk 2 5 1 (some 9)).sura ∧
      1 ≤ (Index.mk 2 5 1 (some 9)).verse ∧ 1 ≤ (Index.mk 2 5 1 (some 9)).word ∧
      (Index.mk 2 5 1 (some 9)).block = some 9 ∧ (1 : Int) ≤ 9) ∧
    (correct_out_of_bounds ⟨2, 5, 1, some 9⟩ data1).sura =
      min (2 : Int) (data1.indexes.length : Int) ∧
    (correct_out_of_bounds ⟨2, 5, 1, some 9⟩ data1).verse =
      min (5 : Int)
        (verseCountAt data1 (correct_out_of_bounds ⟨2, 5, 1, some 9⟩ data1).sura : Int) := by
  have h := C6_clamp data1 ⟨2, 5, 1, some 9⟩ 9 (by decide) (by decide) (by decide)
    (by decide) (by decide) (by decide)
  exact ⟨⟨by decide, by decide, by decide, by decide, by decide, by decide⟩, h.1, h.2.1⟩

/-! Componentwise behaviour of the sentinel resolution steps. -/

theorem resolve_sura_sura (e : Index) (data : QuranData) :
    (resolve_sura e data).sura =
      if e.sura = -1 then (data.indexes.length : Int) else e.sura := by
  unfold resolve_sura; split <;> rfl

theorem resolve_sura_verse (e : Index) (data : QuranData) :
    (resolve_sura e data).verse = e.verse := by
  unfold resolve_sura; split <;> rfl

theorem resolve_sura_word (e : Index) (data : QuranData) :
    (resolve_sura e data).word = e.word := by
  unfold resolve_sura; split <;> rfl

theorem resolve_sura_block (e : Index) (data : QuranData) :
    (resolve_sura e data).block = e.block := by
  unfold resolve_sura; split <;> rfl

theorem resolve_verse_verse (e : Index) (data : QuranData) :
    (resolve_verse e data).verse =
      if e.verse = -1 then ((pyGet [] data.indexes (e.sura - 1)).length : Int) else e.verse := by
  unfold resolve_verse; split <;> rfl

theorem resolve_verse_sura (e : Index) (data : QuranData) :
    (resolve_verse e data).sura = e.sura := by
  unfold resolve_verse; split <;> rfl

theorem resolve_verse_word (e : Index) (data : QuranData) :
    (resolve_verse e data).word = e.word := by
  unfold resolve_verse; split <;> rfl

theorem resolve_verse_block (e : Index) (data : QuranData) :
    (resolve_verse e data).block = e.block := by
  unfold resolve_verse; split <;> rfl

theorem resolve_word_word (e : Index) (data : QuranData) :
    (resolve_word e data).word =
      if e.word = -1
        then ((pyGet [] (pyGet [] data.indexes (e.sura - 1)) (e.verse - 1)).length : Int)
        else e.word := by
  unfold resolve_word; split <;> rfl

theorem resolve_word_sura (e : Index) (data : QuranData) :
    (resolve_word e data).sura = e.sura := by
  unfold resolve_word; split <;> rfl

theorem resolve_word_verse (e : Index) (data : QuranData) :
    (resolve_word e data).verse = e.verse := by
  unfold resolve_word; split <;> rfl

theorem resolve_word_block (e : Index) (data : QuranData) :
    (resolve_word e data).block = e.block := by
  unfold resolve_word; split <;> rfl

theorem resolve_blk_block (e : Index) (data : QuranData) (bb : Int) (h : e.block = some bb) :
    (resolve_blk e data).block =
      some (if bb = -1
        then ((pyGet [] (pyGet [] (pyGet [] data.indexes (e.sura - 1)) (e.verse - 1))
          (e.word - 1)).length : Int)
        else bb) := by
  simp only [resolve_blk, h]
  split
  next hgt => simp
  next hgt => rw [h]

theorem resolve_blk_sura (e : Index) (data : QuranData) :
    (resolve_blk e data).sura = e.sura := by
  rcases h : e.block with _ | bb
  · simp [resolve_blk, h]
  · simp only [resolve_blk, h]
    split <;> rfl

theorem resolve_blk_verse (e : Index) (data : QuranData) :
    (resolve_blk e data).verse = e.verse := by
  rcases h : e.block with _ | bb
  · simp [resolve_blk, h]
  · simp only [resolve_blk, h]
    split <;> rfl

theorem resolve_blk_word (e : Index) (data : QuranData) :
    (resolve_blk e data).word = e.word := by
  rcases h : e.block with _ | bb
  · simp [resolve_blk, h]
  · simp only [resolve_blk, h]
    split <;> rfl

/-! Clamping never changes a -1 component: -1 exceeds no length. -/

theorem clamp_keeps_sura (e : Index) (data : QuranData) (h : e.sura = -1) :
    (correct_out_of_bounds e data).sura = -1 := by
  unfold correct_out_of_bounds
  rw [clamp_blk_sura, clamp_word_sura, clamp_verse_sura, clamp_sura_sura, h]
  omega

theorem clamp_keeps_verse (e : Index) (data : QuranData) (h : e.verse = -1) :
    (correct_out_of_bounds e data).verse = -1 := by
  unfold correct_out_of_bounds
  rw [clamp_blk_verse, clamp_word_verse, clamp_verse_verse, clamp_sura_verse, h]
  omega

theorem clamp_keeps_word (e : Index) (data : QuranData) (h : e.word = -1) :
    (correct_out_of_bounds e data).word = -1 := by
  unfold correct_out_of_bounds
  rw [clamp_blk_word, clamp_word_word, clamp_verse_word, clamp_sura_word, h]
  omega

theorem clamp_keeps_block (e : Index) (data : QuranData) (h : e.block = some (-1)) :
    (correct_out_of_bounds e data).block = some (-1) := by
  unfold correct_out_of_bounds
  rw [clamp_blk_block _ data (-1)
    (by rw [clamp_word_block, clamp_verse_block, clamp_sura_block]; exact h)]
  exact congrArg some (by omega)

/-- C5: sentinel resolution of the end coordinate is level-by-level against
the already clamped and resolved enclosing components: a -1 sura becomes the
sura count, a -1 verse the verse count of the resolved sura, a -1 word the
word count of the resolved (sura, verse), and a -1 block the block count of
the resolved (sura, verse, word); resolution runs after clamping. -/
theorem C5_resolve (data : QuranData) (e : Index)
    (h1 : 1 ≤ (resolve_end data (correct_out_of_bounds e data)).sura)
    (h2 : (resolve_end data (correct_out_of_bounds e data)).sura ≤
      (data.indexes.length : Int))
    (h3 : 1 ≤ (resolve_end data (correct_out_of_bounds e data)).verse)
    (h4 : (resolve_end data (correct_out_of_bounds e data)).verse ≤
      (verseCountAt data (resolve_end data (correct_out_of_bounds e data)).sura : Int))
    (h5 : 1 ≤ (resolve_end data (correct_out_of_bounds e data)).word)
    (h6 : (resolve_end data (correct_out_of_bounds e data)).word ≤
      (wordCountAt data (resolve_end data (correct_out_of_bounds e data)).sura
        (resolve_end data (correct_out_of_bounds e data)).verse : Int)) :
    (e.sura = -1 → (resolve_end data (correct_out_of_bounds e data)).sura =
      (data.indexes.length : Int)) ∧
    (e.verse = -1 → (resolve_end data (correct_out_of_bounds e data)).verse =
      (verseCountAt data (resolve_end data (correct_out_of_bounds e data)).sura : Int)) ∧
    (e.word = -1 → (resolve_end data (correct_out_of_bounds e data)).word =
      (wordCountAt data (resolve_end data (correct_out_of_bounds e data)).sura
        (resolve_end data (correct_out_of_bounds e data)).verse : Int)) ∧
    (e.block = some (-1) → (resolve_end data (correct_out_of_bounds e data)).block =
      some (blockCountAt data (resolve_end data (correct_out_of_bounds e data)).sura
        (resolve_end data (correct_out_of_bounds e data)).verse
        (resolve_end data (correct_out_of_bounds e data)).word : Int)) := by
  unfold resolve_end at h1 h2 h3 h4 h5 h6 ⊢
  set j1 := correct_out_of_bounds e data with hj1
  set j2 := resolve_sura j1 data with hj2
  set j3 := resolve_verse j2 data with hj3
  set j4 := resolve_word j3 data with hj4
  have er_s : (resolve_blk j4 data).sura = j2.sura := by
    rw [resolve_blk_sura, hj4, resolve_word_sura, hj3, resolve_verse_sura]
  have er_v : (resolve_blk j4 data).verse = j3.verse := by
    rw [resolve_blk_verse, hj4, resolve_word_verse]
  have er_w : (resolve_blk j4 data).word = j4.word := resolve_blk_word j4 data
  have e3s : j3.sura = j2.sura := resolve_verse_sura j2 data
  have e4s : j4.sura = j2.sura := by rw [hj4, resolve_word_sura, e3s]
  have e4v : j4.verse = j3.verse := resolve_word_verse j3 data
  refine ⟨?_, ?_, ?_, ?_⟩
  · intro ha
    have hk : j1.sura = -1 := clamp_keeps_sura e data ha
    rw [er_s, hj2, resolve_sura_sura, hk, if_pos rfl]
  · intro hb
    have hk : j1.verse = -1 := clamp_keeps_verse e data hb
    have hk2 : j2.verse = -1 := by rw [hj2, resolve_sura_verse, hk]
    rw [er_v, hj3, resolve_verse_verse, hk2, if_pos rfl, er_s]
    exact congrArg Nat.cast (pyGet_len_verse data j2.sura (by rw [er_s] at h1; exact h1))
  · intro hc
    have hk : j1.word = -1 := clamp_keeps_word e data hc
    have hk3 : j3.word = -1 := by
      rw [hj3, resolve_verse_word, hj2, resolve_sura_word, hk]
    rw [er_w, hj4, resolve_word_word, hk3, if_pos rfl, er_s, er_v, e3s]
    exact congrArg Nat.cast (pyGet_len_word data j2.sura j3.verse
      (by rw [er_s] at h1; exact h1) (by rw [er_v] at h3; exact h3))
  · intro hd
    have hk : j1.block = some (-1) := clamp_keeps_block e data hd
    have hk4 : j4.block = some (-1) := by
      rw [hj4, resolve_word_block, hj3, resolve_verse_block, hj2, resolve_sura_block, hk]
    rw [resolve_blk_block j4 data (-1) hk4, if_pos rfl, er_s, er_v, er_w, e4s, e4v]
    exact congrArg (fun n : Nat => some (n : Int))
      (pyGet_len_blk data j2.sura j3.verse j4.word
        (by rw [er_s] at h1; exact h1) (by rw [er_v] at h3; exact h3)
        (by rw [er_w] at h5; exact h5))

theorem C5_resolve_witness :
    (1 ≤ (resolve_end data1 (correct_out_of_bounds ⟨1, -1, 1, some (-1)⟩ data1)).sura ∧
      (resolve_end data1 (correct_out_of_bounds ⟨1, -1, 1, some (-1)⟩ data1)).sura ≤
        (data1.indexes.length : Int) ∧
      1 ≤ (resolve_end data1 (correct_out_of_bounds ⟨1, -1, 1, some (-1)⟩ data1)).verse ∧
      1 ≤ (resolve_end data1 (correct_out_of_bounds ⟨1, -1, 1, some (-1)⟩ data1)).word) ∧
    ((Index.mk 1 (-1) 1 (some (-1))).verse = -1 →
      (resolve_end data1 (correct_out_of_bounds ⟨1, -1, 1, some (-1)⟩ data1)).verse =
        (verseCountAt data1
          (resolve_end data1 (correct_out_of_bounds ⟨1, -1, 1, some (-1)⟩ data1)).sura : Int)) ∧
    ((Index.mk 1 (-1) 1 (some (-1))).block = some (-1) →
      (resolve_end data1 (correct_out_of_bounds ⟨1, -1, 1, some (-1)⟩ data1)).block =
        some (blockCountAt data1
          (resolve_end data1 (correct_out_of_bounds ⟨1, -1, 1, some (-1)⟩ data1)).sura
          (resolve_end data1 (correct_out_of_bounds ⟨1, -1, 1, some (-1)⟩ data1)).verse
          (resolve_end data1 (correct_out_of_bounds ⟨1, -1, 1, some (-1)⟩ data1)).word : Int)) := by
  have h := C5_resolve data1 ⟨1, -1, 1, some (-1)⟩ (by decide) (by decide) (by decide)
    (by decide) (by decide) (by decide)
  exact ⟨⟨by decide, by decide, by decide, by decide⟩, h.2.1, h.2.2.2⟩

/-! Aggregation stage of get_text (src/qrn/mushaf.py lines 202 to 221):
itertools.groupby over the key (sura, verse, word) followed by per-group
concatenation of the four text fields, with the block component cleared. -/

/-- The groupby key of line 206: (sura, verse, word) of the record. -/
def groupKey (b : Block) : Int × Int × Int := (b.index.sura, b.index.verse, b.index.word)

/-- Longest prefix sharing the given key, and the remainder. -/
def takeRun (k : Int × Int × Int) : List Block → List Block × List Block
  | [] => ([], [])
  | b :: rest =>
    if groupKey b = k then
      let r := takeRun k rest
      (b :: r.1, r.2)
    else ([], b :: rest)

theorem takeRun_length (k : Int × Int × Int) :
    ∀ l : List Block, (takeRun k l).2.length ≤ l.length := by
  intro l
  induction l with
  | nil => exact Nat.le_refl _
  | cons b rest ih =>
    unfold takeRun
    split
    · simpa using Nat.le_succ_of_le ih
    · exact Nat.le_refl _

/-- The maximal runs of consecutive equal-key records, as itertools.groupby
yields them; the fuel only bounds the number of groups and the list length
always suffices. -/
def groupRunsF : Nat → List Block → List (List Block)
  | 0, _ => []
  | _ + 1, [] => []
  | n + 1, b :: rest =>
    (b :: (takeRun (groupKey b) rest).1) :: groupRunsF n (takeRun (groupKey b) rest).2

def groupRuns (l : List Block) : List (List Block) := groupRunsF l.length l

/-- The aggregated record of one group (lines 209 to 221): each text field is
the ordered concatenation over the group, and the coordinate is the groupby
key, i.e. the shared (sura, verse, word) of the members, with block None. -/
def aggBlock (g : List Block) : Block :=
  { grapheme_ar := String.join (g.map fun b => b.grapheme_ar)
    grapheme_lt := String.join (g.map fun b => b.grapheme_lt)
    archigrapheme_ar := String.join (g.map fun b => b.archigrapheme_ar)
    archigrapheme_lt := String.join (g.map fun b => b.archigrapheme_lt)
    index := match g with
      | b :: _ => ⟨b.index.sura, b.index.verse, b.index.word, none⟩
      | [] => ⟨0, 0, 0, none⟩ }

/-- The whole aggregation stage: one record per consecutive-key group. -/
def aggregate (bs : List Block) : List Block := (groupRuns bs).map aggBlock

theorem groupRunsF_nil (n : Nat) : groupRunsF n [] = [] := by
  cases n <;> rfl

theorem takeRun_all (k : Int × Int × Int) :
    ∀ (g z : List Block), (∀ b ∈ g, groupKey b = k) →
      (∀ b, z.head? = some b → groupKey b ≠ k) →
      takeRun k (g ++ z) = (g, z) := by
  intro g
  induction g with
  | nil =>
    intro z _ hz
    cases z with
    | nil => rfl
    | cons b z2 =>
      show takeRun k (b :: z2) = ([], b :: z2)
      unfold takeRun
      rw [if_neg (hz b rfl)]
  | cons b g2 ih =>
    intro z hg hz
    show takeRun k (b :: (g2 ++ z)) = (b :: g2, z)
    unfold takeRun
    rw [if_pos (hg b (by simp)), ih z (fun x hx => hg x (by simp [hx])) hz]

theorem groupRunsF_flatten :
    ∀ (gs : List (List Block)) (ks : List (Int × Int × Int)) (n : Nat),
      List.Forall₂ (fun g k => g ≠ [] ∧ ∀ b ∈ g, groupKey b = k) gs ks →
      List.Chain' (fun a b => a ≠ b) ks →
      gs.flatten.length ≤ n →
      groupRunsF n gs.flatten = gs := by
  intro gs
  induction gs with
  | nil =>
    intro ks n _ _ _
    exact groupRunsF_nil n
  | cons g gs2 ih =>
    intro ks n hf hc hn
    rcases hf with _ | ⟨⟨hne, hkey⟩, hf2⟩
    rename_i k ks2
    rcases hgdef : g with _ | ⟨b, g2⟩
    · exact absurd hgdef hne
    subst hgdef
    obtain ⟨m, hm⟩ : ∃ m, n = m + 1 := by
      refine ⟨n - 1, ?_⟩
      simp only [List.flatten_cons, List.length_append, List.length_cons] at hn
      omega
    subst hm
    have hkb : groupKey b = k := hkey b (by simp)
    have hz : ∀ x, gs2.flatten.head? = some x → groupKey x ≠ groupKey b := by
      intro x hx
      rcases hf2 with _ | ⟨⟨hne2, hkey2⟩, hf3⟩
      · simp at hx
      · rename_i g3 k2 gs3 ks3
        rcases hg3 : g3 with _ | ⟨b3, g4⟩
        · exact absurd hg3 hne2
        subst hg3
        simp only [List.flatten_cons, List.cons_append, List.head?_cons] at hx
        obtain rfl : b3 = x := Option.some.inj hx
        have hxk : groupKey b3 = k2 := hkey2 b3 (by simp)
        have hkk : k ≠ k2 := (List.chain'_cons.mp hc).1
        rw [hxk, hkb]
        exact fun hcon => hkk hcon.symm
    have htr := takeRun_all (groupKey b) g2 gs2.flatten
      (fun x hx => by rw [hkey x (by simp [hx]), hkb]) hz
    have hrest : gs2.flatten.length ≤ m := by
      simp only [List.flatten_cons, List.length_append, List.length_cons] at hn
      omega
    show groupRunsF (m + 1) (b :: (g2 ++ gs2.flatten)) = (b :: g2) :: gs2
    unfold groupRunsF
    rw [htr]
    show (b :: g2) :: groupRunsF m gs2.flatten = (b :: g2) :: gs2
    rw [ih ks2 m hf2 hc.tail hrest]

/-- C4: with aggregation enabled, get_text groups consecutive blocks sharing
one (sura, verse, word) key and emits exactly one record per group whose four
text fields are the in-order concatenations over the group, whose index is
the shared key with block None, with the groups in upstream order. -/
theorem C4_aggregate (gs : List (List Block)) (ks : List (Int × Int × Int))
    (hk : List.Forall₂ (fun g k => g ≠ [] ∧ ∀ b ∈ g, groupKey b = k) gs ks)
    (hadj : List.Chain' (fun a b => a ≠ b) ks) :
    aggregate gs.flatten = List.zipWith (fun g k =>
      { grapheme_ar := String.join (g.map fun b => b.grapheme_ar)
        grapheme_lt := String.join (g.map fun b => b.grapheme_lt)
        archigrapheme_ar := String.join (g.map fun b => b.archigrapheme_ar)
        archigrapheme_lt := String.join (g.map fun b => b.archigrapheme_lt)
        index := ⟨k.1, k.2.1, k.2.2, none⟩ } : List Block → Int × Int × Int → Block)
      gs ks := by
  unfold aggregate groupRuns
  rw [groupRunsF_flatten gs ks _ hk hadj (Nat.le_refl _)]
  clear hadj
  induction hk with
  | nil => rfl
  | cons hgk hrest ih =>
    rename_i g k gs2 ks2
    obtain ⟨hne, hkey⟩ := hgk
    simp only [List.map_cons, List.zipWith_cons_cons, ih]
    congr 1
    rcases hgd : g with _ | ⟨b, g2⟩
    · exact absurd hgd hne
    subst hgd
    have hbk := hkey b (by simp)
    unfold groupKey at hbk
    unfold aggBlock
    rw [← hbk]

def bA : Block := ⟨"x1", "y1", "z1", "w1", ⟨1, 1, 1, some 1⟩⟩

def bB : Block := ⟨"x2", "y2", "z2", "w2", ⟨1, 1, 1, some 2⟩⟩

def bC : Block := ⟨"x3", "y3", "z3", "w3", ⟨1, 1, 2, some 1⟩⟩

theorem C4_aggregate_witness :
    List.Forall₂ (fun g k => g ≠ [] ∧ ∀ b ∈ g, groupKey b = k)
      [[bA, bB], [bC]] [(1, 1, 1), (1, 1, 2)] ∧
    List.Chain' (fun a b => a ≠ b)
      [((1 : Int), (1 : Int), (1 : Int)), ((1 : Int), (1 : Int), (2 : Int))] ∧
    aggregate ([[bA, bB], [bC]] : List (List Block)).flatten = List.zipWith (fun g k =>
      { grapheme_ar := String.join (g.map fun b => b.grapheme_ar)
        grapheme_lt := String.join (g.map fun b => b.grapheme_lt)
        archigrapheme_ar := String.join (g.map fun b => b.archigrapheme_ar)
        archigrapheme_lt := String.join (g.map fun b => b.archigrapheme_lt)
        index := ⟨k.1, k.2.1, k.2.2, none⟩ } : List Block → Int × Int × Int → Block)
      [[bA, bB], [bC]] [(1, 1, 1), (1, 1, 2)] := by
  have hf : List.Forall₂ (fun g k => g ≠ [] ∧ ∀ b ∈ g, groupKey b = k)
      [[bA, bB], [bC]] [(1, 1, 1), (1, 1, 2)] :=
    List.Forall₂.cons ⟨by decide, by decide⟩
      (List.Forall₂.cons ⟨by decide, by decide⟩ List.Forall₂.nil)
  have hch : List.Chain' (fun a b : Int × Int × Int => a ≠ b)
      [((1 : Int), (1 : Int), (1 : Int)), ((1 : Int), (1 : Int), (2 : Int))] :=
    List.chain'_cons.mpr ⟨by decide, List.chain'_singleton _⟩
  exact ⟨hf, hch, C4_aggregate [[bA, bB], [bC]] [(1, 1, 1), (1, 1, 2)] hf hch⟩

/-! Presentation stage of get_text (src/qrn/mushaf.py lines 223 to 253). -/

/-- The presentation flags of the args dict, after defaulting. -/
structure Args where
  blocks : Bool
  no_lat : Bool
  no_ara : Bool
  no_graph : Bool
  no_arch : Bool
deriving DecidableEq, Repr

/-- The coordinate string of lines 247 to 249: sura:verse:word, with :block
appended only when the block component is truthy (not None and not 0). -/
def index_str (i : Index) : String :=
  let base := toString i.sura ++ ":" ++ toString i.verse ++ ":" ++ toString i.word
  match i.block with
  | some b => if b ≠ 0 then base ++ ":" ++ toString b else base
  | none => base

/-- Field selection of lines 225 to 251 for one record.  Line 228 reads the
bare name no_arch, which is bound nowhere in the function or module, so the
branch with no_lat true and no_graph false raises NameError in Python; the
model returns it as an error value. -/
def presentBlock (args : Args) (b : Block) : Except String (List String) :=
  if args.no_lat then
    if args.no_graph then .ok [b.archigrapheme_ar, index_str b.index]
    else .error "NameError: name no_arch is not defined"
  else if args.no_ara then
    if args.no_graph then .ok [b.archigrapheme_lt, index_str b.index]
    else if args.no_arch then .ok [b.grapheme_lt, index_str b.index]
    else .ok [b.grapheme_lt, b.archigrapheme_lt, index_str b.index]
  else
    if args.no_graph then .ok [b.archigrapheme_ar, b.archigrapheme_lt, index_str b.index]
    else if args.no_arch then .ok [b.grapheme_ar, b.grapheme_lt, index_str b.index]
    else .ok [b.grapheme_ar, b.grapheme_lt, b.archigrapheme_ar, b.archigrapheme_lt,
      index_str b.index]

/-- C3 concerns the flag table of the spec, section 4.4.  The code cannot
realise the no_lat rows that read the archigraphemic flag: with no_lat true
and no_graph false (no_arch false, the table row T - F F, or no_arch true,
the row T - - T), line 228 of src/qrn/mushaf.py evaluates the undefined name
no_arch and raises NameError instead of yielding the fields the table gives. -/
theorem C3_no_lat_name_error (b : Block) (blocks no_ara : Bool) :
    presentBlock ⟨blocks, true, no_ara, false, false⟩ b =
      .error "NameError: name no_arch is not defined" ∧
    presentBlock ⟨blocks, true, no_ara, false, true⟩ b =
      .error "NameError: name no_arch is not defined" ∧
    presentBlock ⟨blocks, true, no_ara, true, false⟩ b =
      .ok [b.archigrapheme_ar, index_str b.index] := by
  exact ⟨rfl, rfl, rfl⟩

/-! The get_text pipeline as a state transformer (C9, C10). -/

/-- The args dict as passed by the caller: None marks a missing key. -/
structure ArgsIn where
  blocks : Option Bool
  no_lat : Option Bool
  no_ara : Option Bool
  no_graph : Option Bool
  no_arch : Option Bool
deriving DecidableEq, Repr

/-- Lines 164 to 166 of get_text: every missing key of the args dict is set
to False, mutating the caller-supplied dict (or the shared default dict) in
place; the result is the dict state after the loop. -/
def fill_args (a : ArgsIn) : Args :=
  ⟨a.blocks.getD false, a.no_lat.getD false, a.no_ara.getD false,
   a.no_graph.getD false, a.no_arch.getD false⟩

/-- Modelled from the spec: Index.to_base_zero of the missing file
src/qrn/models.py, the conversion from 1-based external to 0-based internal
coordinates of spec section 4.1, subtracting one at every level (get_text
lines 197 to 198 apply it to both indices after clamping and resolution). -/
def to_base_zero (i : Index) : Index :=
  ⟨i.sura - 1, i.verse - 1, i.word - 1, i.block.map fun b => b - 1⟩

/-- get_text of src/qrn/mushaf.py (lines 132 to 221) up to presentation, as a
state transformer: args defaulting, clamping of both indices, sentinel
resolution of the end index only, conversion to base zero of both indices in
place, extraction, and optional aggregation.  The returned indices are the
final states of the caller-supplied Index objects. -/
def get_text_model (data : QuranData) (ini_index end_index : Index) (args : ArgsIn) :
    Index × Index × Args × List Block :=
  let args2 := fill_args args
  let ini := to_base_zero (correct_out_of_bounds ini_index data)
  let e := to_base_zero (resolve_end data (correct_out_of_bounds end_index data))
  let seq := extract_seq data ini e
  let seq2 := if args2.blocks then seq else aggregate seq
  (ini, e, args2, seq2)

/-- Two suras with one leaf each, to exhibit the negative-index behaviour. -/
def data2 : QuranData :=
  { indexes := [[[[0]]], [[[1]]]],
    blocks := [("a", "a", "a", "a"), ("b", "b", "b", "b")] }

/-- C9: get_text mutates its arguments: after the call the two Index objects
hold the clamped, sentinel-resolved, 0-based values, so a second call with
the same objects ranges over different coordinates, and the args dict has its
missing keys set to False in place. -/
theorem C9_in_place_mutation :
    (∀ (data : QuranData) (i e : Index) (a : ArgsIn),
      (get_text_model data i e a).1 = to_base_zero (correct_out_of_bounds i data) ∧
      (get_text_model data i e a).2.1 =
        to_base_zero (resolve_end data (correct_out_of_bounds e data)) ∧
      (a.blocks = none → (get_text_model data i e a).2.2.1.blocks = false) ∧
      (a.no_lat = none → (get_text_model data i e a).2.2.1.no_lat = false) ∧
      (a.no_ara = none → (get_text_model data i e a).2.2.1.no_ara = false) ∧
      (a.no_graph = none → (get_text_model data i e a).2.2.1.no_graph = false) ∧
      (a.no_arch = none → (get_text_model data i e a).2.2.1.no_arch = false)) ∧
    (get_text_model data1 ⟨1, 1, 1, some 1⟩ ⟨1, 1, 1, some 1⟩
        ⟨some true, none, none, none, none⟩).1 ≠ ⟨1, 1, 1, some 1⟩ ∧
    (get_text_model data1
        (get_text_model data1 ⟨1, 1, 1, some 1⟩ ⟨1, 1, 1, some 1⟩
          ⟨some true, none, none, none, none⟩).1
        (get_text_model data1 ⟨1, 1, 1, some 1⟩ ⟨1, 1, 1, some 1⟩
          ⟨some true, none, none, none, none⟩).2.1
        ⟨some true, none, none, none, none⟩).2.2.2 ≠
      (get_text_model data1 ⟨1, 1, 1, some 1⟩ ⟨1, 1, 1, some 1⟩
        ⟨some true, none, none, none, none⟩).2.2.2 := by
  refine ⟨?_, by decide, by decide⟩
  intro data i e a
  refine ⟨rfl, rfl, ?_, ?_, ?_, ?_, ?_⟩ <;>
    intro h <;> simp [get_text_model, fill_args, h]

theorem C9_in_place_mutation_witness :
    ((⟨some true, none, none, none, none⟩ : ArgsIn).no_lat = none ∧
      (get_text_model data1 ⟨1, 1, 1, some 1⟩ ⟨1, 1, 1, some 1⟩
        ⟨some true, none, none, none, none⟩).2.2.1.no_lat = false) ∧
    (get_text_model data1 ⟨1, 1, 1, some 1⟩ ⟨1, 1, 1, some 1⟩
        ⟨some true, none, none, none, none⟩).1 =
      to_base_zero (correct_out_of_bounds ⟨1, 1, 1, some 1⟩ data1) :=
  ⟨⟨rfl, (C9_in_place_mutation.1 data1 ⟨1, 1, 1, some 1⟩ ⟨1, 1, 1, some 1⟩
      ⟨some true, none, none, none, none⟩).2.2.2.1 rfl⟩,
    (C9_in_place_mutation.1 data1 ⟨1, 1, 1, some 1⟩ ⟨1, 1, 1, some 1⟩
      ⟨some true, none, none, none, none⟩).1⟩

/-! An initial coordinate of -2 at verse, word and block level (the image of
the -1 sentinel under to_base_zero) sits below every loop counter, so the
skip checks never fire, exactly as with 0. -/

theorem blockLoop_ini_low (data : QuranData) (e' : RCoord) (sI s0 : Int) (v w : Nat) :
    ∀ (bs : List Nat) (b0 : Nat),
      blockLoop data ⟨sI, -2, -2, -2⟩ e' s0 v w bs b0 =
        blockLoop data ⟨sI, 0, 0, 0⟩ e' s0 v w bs b0 := by
  intro bs
  induction bs with
  | nil => intro b0; rfl
  | cons bid rest ih =>
    intro b0
    simp only [blockLoop]
    have hskipL : ¬(s0 = sI ∧ (v : Int) = -2 ∧ (w : Int) = -2 ∧ (b0 : Int) < -2) := by
      rintro ⟨-, hv, -, -⟩; omega
    have hskipR : ¬(s0 = sI ∧ (v : Int) = 0 ∧ (w : Int) = 0 ∧ (b0 : Int) < 0) := by
      rintro ⟨-, -, -, hb⟩; omega
    rw [if_neg hskipL, if_neg hskipR, ih (b0 + 1)]

theorem wordLoop_ini_low (data : QuranData) (e' : RCoord) (sI s0 : Int) (v : Nat) :
    ∀ (ws : List (List Nat)) (w0 : Nat),
      wordLoop data ⟨sI, -2, -2, -2⟩ e' s0 v ws w0 =
        wordLoop data ⟨sI, 0, 0, 0⟩ e' s0 v ws w0 := by
  intro ws
  induction ws with
  | nil => intro w0; rfl
  | cons word rest ih =>
    intro w0
    simp only [wordLoop]
    have hskipL : ¬(s0 = sI ∧ (v : Int) = -2 ∧ (w0 : Int) < -2) := by
      rintro ⟨-, hv, -⟩; omega
    have hskipR : ¬(s0 = sI ∧ (v : Int) = 0 ∧ (w0 : Int) < 0) := by
      rintro ⟨-, -, hw⟩; omega
    rw [if_neg hskipL, if_neg hskipR, blockLoop_ini_low data e' sI s0 v w0 word 0,
      ih (w0 + 1)]

theorem verseLoop_ini_low (data : QuranData) (e' : RCoord) (sI s0 : Int) :
    ∀ (vs : List (List (List Nat))) (v0 : Nat),
      verseLoop data ⟨sI, -2, -2, -2⟩ e' s0 vs v0 =
        verseLoop data ⟨sI, 0, 0, 0⟩ e' s0 vs v0 := by
  intro vs
  induction vs with
  | nil => intro v0; rfl
  | cons verse rest ih =>
    intro v0
    simp only [verseLoop]
    have hskipL : ¬(s0 = sI ∧ (v0 : Int) < -2) := by
      rintro ⟨-, hv⟩; omega
    have hskipR : ¬(s0 = sI ∧ (v0 : Int) < 0) := by
      rintro ⟨-, hv⟩; omega
    rw [if_neg hskipL, if_neg hskipR, wordLoop_ini_low data e' sI s0 v0 verse 0,
      ih (v0 + 1)]

theorem suraLoop_ini_low (data : QuranData) (e' : RCoord) (sI : Int) :
    ∀ (n : Nat) (s0 : Int),
      suraLoop data ⟨sI, -2, -2, -2⟩ e' n s0 = suraLoop data ⟨sI, 0, 0, 0⟩ e' n s0 := by
  intro n
  induction n with
  | zero => intro s0; rfl
  | succ m ih =>
    intro s0
    simp only [suraLoop]
    rw [verseLoop_ini_low, ih (s0 + 1)]

/-- C10: a -1 component of the initial coordinate is never resolved against
the structure: get_text leaves it to to_base_zero, which turns it into -2;
at verse, word and block level a -2 initial component behaves as a value
below every real index (the skip checks never fire, as with 0), while a -2
initial sura starts the sura loop at -2 and so, through negative indexing,
reads a sura from the back of the structure, tagged with sura index -1. -/
theorem C10_ini_sentinel_unresolved :
    (∀ (data : QuranData) (i e : Index) (a : ArgsIn),
      (i.sura = -1 → (get_text_model data i e a).1.sura = -2) ∧
      (i.verse = -1 → (get_text_model data i e a).1.verse = -2) ∧
      (i.word = -1 → (get_text_model data i e a).1.word = -2) ∧
      (i.block = some (-1) → (get_text_model data i e a).1.block = some (-2))) ∧
    (∀ (data : QuranData) (s : Int) (e : Index),
      extract_seq data ⟨s, -2, -2, some (-2)⟩ e = extract_seq data ⟨s, 0, 0, some 0⟩ e) ∧
    extract_seq data2 ⟨-2, 0, 0, some 0⟩ ⟨-2, 0, 0, some 0⟩ =
      [⟨"a", "a", "a", "a", ⟨-1, 1, 1, some 1⟩⟩] := by
  refine ⟨?_, ?_, by decide⟩
  · intro data i e a
    refine ⟨?_, ?_, ?_, ?_⟩
    · intro h
      show (to_base_zero (correct_out_of_bounds i data)).sura = -2
      unfold to_base_zero
      rw [show (correct_out_of_bounds i data).sura = -1 from clamp_keeps_sura i data h]
      norm_num
    · intro h
      show (to_base_zero (correct_out_of_bounds i data)).verse = -2
      unfold to_base_zero
      rw [show (correct_out_of_bounds i data).verse = -1 from clamp_keeps_verse i data h]
      norm_num
    · intro h
      show (to_base_zero (correct_out_of_bounds i data)).word = -2
      unfold to_base_zero
      rw [show (correct_out_of_bounds i data).word = -1 from clamp_keeps_word i data h]
      norm_num
    · intro h
      show (to_base_zero (correct_out_of_bounds i data)).block = some (-2)
      unfold to_base_zero
      rw [show (correct_out_of_bounds i data).block = some (-1) from
        clamp_keeps_block i data h]
      rfl
  · intro data s e
    unfold extract_seq
    rcases hb : e.block with _ | eb
    · rfl
    · exact suraLoop_ini_low data ⟨e.sura, e.verse, e.word, eb⟩ s _ _

theorem C10_ini_sentinel_unresolved_witness :
    ((⟨-1, -1, -1, some (-1)⟩ : Index).verse = -1 ∧
      (get_text_model data1 ⟨-1, -1, -1, some (-1)⟩ ⟨1, 1, 1, some 1⟩
        ⟨some true, none, none, none, none⟩).1.verse = -2) ∧
    ((⟨-1, -1, -1, some (-1)⟩ : Index).block = some (-1) ∧
      (get_text_model data1 ⟨-1, -1, -1, some (-1)⟩ ⟨1, 1, 1, some 1⟩
        ⟨some true, none, none, none, none⟩).1.block = some (-2)) :=
  ⟨⟨rfl, (C10_ini_sentinel_unresolved.1 data1 ⟨-1, -1, -1, some (-1)⟩ ⟨1, 1, 1, some 1⟩
      ⟨some true, none, none, none, none⟩).2.1 rfl⟩,
    ⟨rfl, (C10_ini_sentinel_unresolved.1 data1 ⟨-1, -1, -1, some (-1)⟩ ⟨1, 1, 1, some 1⟩
      ⟨some true, none, none, none, none⟩).2.2.2 rfl⟩⟩

end Qran
